import Mathlib

/-! VirtualMultiArrayForMSVC: the benchmark driver and the virtual array it exercises.

Shallow embedding of `VirtualMultiArrayForMSVC.cpp`:

* the payload class `Object` (a `char` array with an index marker, and an `int` id);
* the configuration arithmetic of `main`;
* the initialisation loop, the sweep loop and the per-thread read loop of `main`;
* the virtual array (`VirtualMultiArray.h` is not among the sources; it is modelled
  from the written specification of the container).

C++ `int` is 32-bit two's complement, `long long` is 64-bit, `size_t` is unsigned 64-bit
(`_AMD64_`).  Machine integers are `Int`/`Nat` with explicit wrapping.  An array subscript
outside the array is undefined behaviour and is modelled as `none` (`Object.getId`); the
value such a call returns on the machine, whatever byte lies at the position read, is
given by `Object.getIdFlat`.
-/

namespace VirtualMultiArrayForMSVC

/-! ## Machine integers -/

/-- Conversion of an exact integer to a 32-bit two's-complement `int`. -/
def wrapInt32 (x : Int) : Int := (x + 2147483648) % 4294967296 - 2147483648

/-- Conversion of an exact integer to a 64-bit two's-complement `long long`. -/
def wrapInt64 (x : Int) : Int :=
  (x + 9223372036854775808) % 18446744073709551616 - 9223372036854775808

/-- Conversion of an exact integer to an unsigned 64-bit `size_t`. -/
def wrapSizeT (x : Int) : Int := x % 18446744073709551616

/-- The values of a 32-bit `int`. -/
def inInt32 (x : Int) : Prop := -2147483648 ≤ x ∧ x ≤ 2147483647

instance (x : Int) : Decidable (inInt32 x) := by unfold inInt32; infer_instance

/-! ## The payload class `Object` -/

/-- The value of `sizeof(int)`. -/
def sizeofInt : Int := 4

/-- Source: `constexpr int TEST_OBJ_SIZE = 1024 * 60;` -/
def TEST_OBJ_SIZE : Int := 1024 * 60

/-- Source: `constexpr int size = TEST_OBJ_SIZE - sizeof(int);` (in `Object(int)` and in
`getId`): the subtraction is done in `size_t` and converted to `int`. -/
def size : Int := wrapInt32 (wrapSizeT (TEST_OBJ_SIZE - sizeofInt))

/-- Number of elements of `char data[TEST_OBJ_SIZE - sizeof(int)]`. -/
def dataLen : Nat := (wrapSizeT (TEST_OBJ_SIZE - sizeofInt)).toNat

/-- Source: `class Object` with members `char data[...]` and `int id`. -/
structure Object where
  data : Fin dataLen → Char
  id : Int

/-- The subscript read `data[i]`; `none` when `i` is outside the array. -/
def readData (data : Fin dataLen → Char) (i : Int) : Option Char :=
  if h : 0 ≤ i ∧ i.toNat < dataLen then some (data ⟨i.toNat, h.2⟩) else none

/-- The subscript write `data[i] = c`; `none` when `i` is outside the array. -/
def writeData (data : Fin dataLen → Char) (i : Int) (c : Char) :
    Option (Fin dataLen → Char) :=
  if h : 0 ≤ i ∧ i.toNat < dataLen then some (Function.update data ⟨i.toNat, h.2⟩ c) else none

/-- The index `id % size` of the marker byte; `%` on `int` truncates toward zero. -/
def markerIndex (id : Int) : Int := Int.tmod id size

/-- Source: `Object() :id(-1) {}`.  The array `data` is left uninitialised: `junk` is
whatever the memory holds. -/
def Object.newDefault (junk : Fin dataLen → Char) : Object :=
  { data := junk, id := -1 }

/-- Source: `Object(int p) :id(p) { data[id % size] = 'A'; }`.  The other bytes of `data`
are left uninitialised (`junk`). -/
def Object.new (junk : Fin dataLen → Char) (p : Int) : Option Object :=
  match writeData junk (markerIndex p) 'A' with
  | some d => some { data := d, id := p }
  | none => none

/-- Source: `const int getId() const`: `id` if `data[id % size] == 'A'`, else `-1`. -/
def Object.getId (o : Object) : Option Int :=
  match readData o.data (markerIndex o.id) with
  | some c => if c = 'A' then some o.id else some (-1)
  | none => none

/-- The byte the subscript `data[i]` yields on the machine: the array's byte when `i` is
inside the array, otherwise the byte `outside i` that the memory around the array holds
at that position. -/
def readByte (outside : Int → Char) (data : Fin dataLen → Char) (i : Int) : Char :=
  match readData data i with
  | some c => c
  | none => outside i

/-- Source: `const int getId() const` as it runs on the machine, a subscript outside the
array reading the surrounding memory `outside`: `if (data[id % size] == 'A') return id;
else return -1;`. -/
def Object.getIdFlat (outside : Int → Char) (o : Object) : Int :=
  if readByte outside o.data (markerIndex o.id) = 'A' then o.id else -1

/-- Source: `Object(const Object& o) = default;` (and the defaulted move constructor and
assignments): member-wise copy. -/
def Object.copy (o : Object) : Object := { data := o.data, id := o.id }

/-- The value of `sizeof(Object)`: the `char` array followed by the `int`, no padding. -/
def sizeofObject : Int := (dataLen : Int) + sizeofInt

/-! ## Configuration computed by `main` -/

/-- Source: `const size_t numThr = 24;` -/
def numThr : Int := 24

/-- Source: `num_threads(24)` on the initialisation loop. -/
def initThreads : Int := 24

/-- Source: `std::vector<int> numLRU = { 12,12,12,12 };` -/
def numLRU : List Int := [12, 12, 12, 12]

/-- Source: `int totalLRUs = 0; for (const auto& e : numLRU) totalLRUs += e;` -/
def totalLRUsOf (l : List Int) : Int := l.foldl (fun acc e => wrapInt32 (acc + e)) 0

/-- The value of `totalLRUs` in `main`. -/
def totalLRUs : Int := totalLRUsOf numLRU

/-- Source: `const long long pageSize = 1;` -/
def pageSize : Int := 1

/-- Source: `const int pagesPerLRU = 50;` -/
def pagesPerLRU : Int := 50

/-- Source: `int numElementsForAllLRUs = totalLRUs * pagesPerLRU * pageSize;`
(`int * int`, then `* long long`, converted back to `int`). -/
def numElementsForAllLRUs : Int :=
  wrapInt32 (wrapInt64 (wrapInt32 (totalLRUs * pagesPerLRU) * pageSize))

/-- Source: `const long long n = numElementsForAllLRUs * 100;` (`int * int`). -/
def n : Int := wrapInt64 (wrapInt32 (numElementsForAllLRUs * 100))

/-- Source: the printed `n * sizeof(Object)` (a `size_t` product). -/
def arraySizeBytes : Int := wrapSizeT (wrapSizeT n * sizeofObject)

/-- Source: the printed `numElementsForAllLRUs * sizeof(Object)` (a `size_t` product). -/
def cacheSizeBytes : Int := wrapSizeT (wrapSizeT numElementsForAllLRUs * sizeofObject)

/-- Source: `int numTestsPerThread = 8000 / numThr;` (a `size_t` division). -/
def numTestsPerThread : Int := wrapInt32 (wrapSizeT 8000 / numThr)

/-- Source: `double limit = (numElementsForAllLRUs / 100 >= 2) ?
(numElementsForAllLRUs / 100) : 2;` with `int` division (truncating). -/
def limitOf (numElems : Int) : Int :=
  if Int.tdiv numElems 100 ≥ 2 then Int.tdiv numElems 100 else 2

/-- The value of `limit` in `main`. -/
def limit : Int := limitOf numElementsForAllLRUs

/-! ## The loops of `main` -/

/-- Source: `#pragma omp parallel for` / `for (long long j = 0; j < n; j++)`: the values
of `j` for which the loop body runs, in program order. -/
def initIndices (n : Int) : List Int := (List.range n.toNat).map Int.ofNat

/-- Source: `int rndIndex = rnd(rng);`: conversion of the drawn real to `int` truncates
toward zero; it is undefined (`none`) when the truncated value is not an `int`. -/
def truncToInt (r : ℚ) : Option Int :=
  if inInt32 (Int.tdiv r.num r.den) then some (Int.tdiv r.num r.den) else none

/-- Source: `for (int k = 0; k < numTestsPerThread; k++) { int rndIndex = rnd(rng); ...
test.get(rndIndex) ... }`: the indices one worker passes to `get`; `draw k` is the real
drawn at iteration `k`. -/
def workerGets (tests : Int) (draw : Nat → ℚ) : List (Option Int) :=
  (List.range tests.toNat).map (fun k => truncToInt (draw k))

/-- Source: `#pragma omp parallel for num_threads(numThr)` / `for (int i = 0; i < numThr;
i++)`: one entry per worker, holding the indices that worker passes to `get`. -/
def readWorkers (threads tests : Int) (draw : Nat → Nat → ℚ) : List (List (Option Int)) :=
  (List.range threads.toNat).map (fun i => workerGets tests (draw i))

/-- Source: `struct Graph2D { float x; float y; }` (coordinates kept exact). -/
structure Graph2D where
  x : ℚ
  y : ℚ

/-- Source: `double hitRatio = (numElementsForAllLRUs / (double)size) * (100.0);` -/
def hitRatio (size : ℚ) : ℚ := ((numElementsForAllLRUs : ℚ) / size) * 100

/-- Source: `(numThr * numTestsPerThread * sizeof(Object) / seconds) / 1000000.0` (a
`size_t` product divided by a `double`). -/
def bandwidth (seconds : ℚ) : ℚ :=
  ((wrapSizeT (wrapSizeT (numThr * numTestsPerThread) * sizeofObject) : ℚ) / seconds) / 1000000

/-- Source: `for (double size = n - 1; size >= limit; size *= 0.95) { ...
log1.push_back(...); log2.push_back(...); }` with `size` an exact rational.  `seconds k`
is the time measured in iteration `k`.  The result is `none` when the fuel runs out
before the loop condition fails. -/
def sweepLoop (seconds : Nat → ℚ) :
    Nat → ℚ → ℚ → List Graph2D × List Graph2D → Option (List Graph2D × List Graph2D)
  | 0, _, _, _ => none
  | fuel + 1, size, limit, logs =>
    if size ≥ limit then
      let sec := seconds logs.1.length
      sweepLoop seconds fuel (size * (19 / 20)) limit
        (logs.1 ++ [Graph2D.mk (hitRatio size) (bandwidth sec)],
         logs.2 ++ [Graph2D.mk (size * (sizeofObject : ℚ) / 1000000) (bandwidth sec)])
    else some logs

/-! ## The virtual array

`VirtualMultiArray.h` is not among the sources.  The container is modelled from its
written specification: pages, per-channel LRU caches, the shard router, the device
backing stores and the `get`/`set` operations of the array.  Concurrent callers are
serialised per channel and every operation is indivisible, so an execution is a sequence
of operations in some order. -/

/-- Modelled from the spec: the error kinds of the virtual array (`VirtualMultiArray.h`
is missing). -/
inductive ArrayError where
  | OutOfRange
  | TransferFailure
  | ConfigurationError
  deriving DecidableEq, Repr

/-- Modelled from the spec: a page (declared in the missing `VirtualMultiArray.h`):
"pageId, ordered sequence of pageSize elements, dirty: bool, lastUseOrder: monotonic
counter". -/
structure Page (α : Type) where
  pageId : Nat
  elems : List α
  dirty : Bool
  lastUseOrder : Nat

/-- Modelled from the spec: a channel cache (declared in the missing
`VirtualMultiArray.h`): "capacity = pagesPerLRU, mapping PageId to Page (resident set),
LRU order"; `clock` is the source of the monotonic use counter. -/
structure ChannelCache (α : Type) where
  capacity : Nat
  resident : List (Page α)
  clock : Nat

/-- Modelled from the spec: the result of the shard router, "(deviceId, channelId,
pageId, offsetInPage)" (the router is in the missing `VirtualMultiArray.h`). -/
structure Route where
  deviceId : Nat
  channelId : Nat
  pageId : Nat
  offsetInPage : Nat
  deriving DecidableEq, Repr

/-- Modelled from the spec: the shard assignment (in the missing `VirtualMultiArray.h`),
a "deterministic, stateless function of (index, deviceCount, channelsPerDevice)" giving
the device and the channel that own a page. -/
abbrev ShardAssignment := Nat → Nat → List Nat → Nat × Nat

/-- Modelled from the spec: the example assignment of the specification (the missing
`VirtualMultiArray.h` fixes the real one): "device = (index / pageSize /
pagesPerDeviceStride) mod deviceCount, channel = a secondary deterministic hash", here
with stride one and the hash `(page / deviceCount) mod channels of the device`. -/
def exampleAssignment : ShardAssignment := fun page deviceCount channels =>
  (page % deviceCount, (page / deviceCount) % channels.getD (page % deviceCount) 1)

/-- Modelled from the spec: the resident page with a given id, if any (channel cache of
the missing `VirtualMultiArray.h`). -/
def findPage {α : Type} (pages : List (Page α)) (pid : Nat) : Option (Page α) :=
  pages.find? (fun p => decide (p.pageId = pid))

/-- Modelled from the spec: "select the least-recently-used resident page" (channel
cache of the missing `VirtualMultiArray.h`): the page with the smallest use counter. -/
def lruPage {α : Type} : List (Page α) → Option (Page α)
  | [] => none
  | p :: ps =>
    match lruPage ps with
    | none => some p
    | some q => if p.lastUseOrder ≤ q.lastUseOrder then some p else some q

/-- Modelled from the spec: "fetch the requested page from Device Backing Store"
(`copyOut` of the device interface, missing with `VirtualMultiArray.h`): the `pageSize`
elements stored at the page's addresses. -/
def fetchPage {α : Type} (pageSize : Nat) (store : Nat → α) (pid : Nat) : List α :=
  (List.range pageSize).map (fun k => store (pid * pageSize + k))

/-- Modelled from the spec: "write it back to Device Backing Store" (`copyIn` of the
device interface, missing with `VirtualMultiArray.h`): the page's elements replace the
store's content at the page's addresses. -/
def writeBack {α : Type} (pageSize : Nat) (store : Nat → α) (pg : Page α) : Nat → α :=
  fun a => if a / pageSize = pg.pageId then (pg.elems[a % pageSize]?).getD (store a)
    else store a

/-- Modelled from the spec: "update LRU order" for a resident page (channel cache of the
missing `VirtualMultiArray.h`). -/
def ChannelCache.touch {α : Type} (c : ChannelCache α) (pid : Nat) : ChannelCache α :=
  { c with
    resident := c.resident.map
      (fun p => if p.pageId = pid then { p with lastUseOrder := c.clock } else p)
    clock := c.clock + 1 }

/-- Modelled from the spec: "if cache at capacity, select the least-recently-used
resident page, write it back to Device Backing Store if dirty, remove it from the
resident set" (channel cache of the missing `VirtualMultiArray.h`). -/
def ChannelCache.evictIfFull {α : Type} (pageSize : Nat) (c : ChannelCache α)
    (store : Nat → α) : ChannelCache α × (Nat → α) :=
  if c.capacity ≤ c.resident.length then
    match lruPage c.resident with
    | none => (c, store)
    | some victim =>
      ({ c with resident := c.resident.filter (fun p => decide (p.pageId ≠ victim.pageId)) },
       if victim.dirty then writeBack pageSize store victim else store)
  else (c, store)

/-- Modelled from the spec: the residency protocol shared by `read` and `write` (channel
cache of the missing `VirtualMultiArray.h`): a resident page has its recency updated; an
absent page is fetched, after an eviction when the cache is at capacity, and enters the
resident set clean. -/
def ChannelCache.ensureResident {α : Type} (pageSize : Nat) (c : ChannelCache α)
    (store : Nat → α) (pid : Nat) : ChannelCache α × (Nat → α) :=
  match findPage c.resident pid with
  | some _ => (c.touch pid, store)
  | none =>
    let r := c.evictIfFull pageSize store
    ({ r.1 with
       resident := { pageId := pid, elems := fetchPage pageSize r.2 pid, dirty := false,
                     lastUseOrder := r.1.clock } :: r.1.resident
       clock := r.1.clock + 1 }, r.2)

/-- Modelled from the spec: `read(pageId, offset)` of the channel cache (missing
`VirtualMultiArray.h`): make the page resident, return the element. -/
def ChannelCache.read {α : Type} (pageSize : Nat) (c : ChannelCache α) (store : Nat → α)
    (pid off : Nat) : Except ArrayError (α × ChannelCache α × (Nat → α)) :=
  let r := c.ensureResident pageSize store pid
  match findPage r.1.resident pid with
  | some pg =>
    match pg.elems[off]? with
    | some e => .ok (e, r.1, r.2)
    | none => .error .TransferFailure
  | none => .error .TransferFailure

/-- Modelled from the spec: `write(pageId, offset, value)` of the channel cache (missing
`VirtualMultiArray.h`): "same residency protocol as read, but after ensuring the page is
resident, the element is updated in place and the page is marked dirty". -/
def ChannelCache.write {α : Type} (pageSize : Nat) (c : ChannelCache α) (store : Nat → α)
    (pid off : Nat) (v : α) : Except ArrayError (ChannelCache α × (Nat → α)) :=
  let r := c.ensureResident pageSize store pid
  match findPage r.1.resident pid with
  | some pg =>
    if off < pg.elems.length then
      .ok ({ r.1 with
             resident := r.1.resident.map
               (fun p => if p.pageId = pid then
                 { p with elems := p.elems.set off v, dirty := true } else p) }, r.2)
    else .error .TransferFailure
  | none => .error .TransferFailure

/-- Modelled from the spec: the virtual array (class `VirtualMultiArray` of the missing
`VirtualMultiArray.h`): "n, pageSize, pagesPerLRU, per-device channel counts, collection
of ChannelCache instances, handle to Device Backing Store per device", with the shard
assignment fixed at construction.  `caches d c` is the cache of channel `c` of device
`d`; `stores d` is the backing store of device `d`, addressed by element. -/
structure VirtualMultiArray (α : Type) where
  n : Nat
  pageSize : Nat
  pagesPerLRU : Nat
  deviceCount : Nat
  channelCounts : List Nat
  assign : ShardAssignment
  caches : Nat → Nat → ChannelCache α
  stores : Nat → Nat → α

/-- Modelled from the spec: construction of the virtual array (constructor of the missing
`VirtualMultiArray.h`): "ConfigurationError: invalid construction parameters
(non-positive n, pageSize, or pagesPerLRU, empty device list)"; the per-device channel
counts are validated positive.  `memory d` is the initial content of device `d`. -/
def VirtualMultiArray.create {α : Type} (n : Int) (devices : List Nat) (pageSize pagesPerLRU : Int)
    (channelCounts : List Int) (assign : ShardAssignment) (memory : Nat → Nat → α) :
    Except ArrayError (VirtualMultiArray α) :=
  if 0 < n ∧ 0 < pageSize ∧ 0 < pagesPerLRU ∧ devices ≠ [] ∧ channelCounts.all (fun c => decide (0 < c))
  then
    .ok { n := n.toNat, pageSize := pageSize.toNat, pagesPerLRU := pagesPerLRU.toNat,
          deviceCount := devices.length, channelCounts := channelCounts.map Int.toNat,
          assign := assign,
          caches := fun _ _ => { capacity := pagesPerLRU.toNat, resident := [], clock := 0 },
          stores := memory }
  else .error .ConfigurationError

/-- Modelled from the spec: the device and channel that own a page, by the assignment
fixed at construction (shard router of the missing `VirtualMultiArray.h`). -/
def VirtualMultiArray.owner {α : Type} (va : VirtualMultiArray α) (page : Nat) : Nat × Nat :=
  va.assign page va.deviceCount va.channelCounts

/-- Modelled from the spec: the shard router `route(index)` (missing
`VirtualMultiArray.h`): "pure and total for index in [0, n); fails with OutOfRange
otherwise"; "pageId = index / pageSize". -/
def VirtualMultiArray.route {α : Type} (va : VirtualMultiArray α) (index : Int) : Except ArrayError Route :=
  if 0 ≤ index ∧ index < va.n then
    let page := index.toNat / va.pageSize
    .ok { deviceId := (va.owner page).1, channelId := (va.owner page).2, pageId := page,
          offsetInPage := index.toNat % va.pageSize }
  else .error .OutOfRange

/-- Modelled from the spec: the array after an operation of one channel (missing
`VirtualMultiArray.h`): the channel's cache and its device's backing store are replaced;
"no cross-channel sharing of page state". -/
def VirtualMultiArray.install {α : Type} (va : VirtualMultiArray α) (d ch : Nat) (c : ChannelCache α)
    (s : Nat → α) : VirtualMultiArray α :=
  { va with
    caches := fun d2 ch2 => if d2 = d ∧ ch2 = ch then c else va.caches d2 ch2
    stores := fun d2 => if d2 = d then s else va.stores d2 }

/-- Modelled from the spec: `get(index)` of the virtual array (missing
`VirtualMultiArray.h`): "routes, then delegates to the target Channel Cache's read. Fails
with OutOfRange if index is not in [0, n)". -/
def VirtualMultiArray.get {α : Type} (va : VirtualMultiArray α) (index : Int) :
    Except ArrayError (α × VirtualMultiArray α) :=
  match va.route index with
  | .error e => .error e
  | .ok r =>
    match (va.caches r.deviceId r.channelId).read va.pageSize (va.stores r.deviceId)
        r.pageId r.offsetInPage with
    | .error e => .error e
    | .ok res => .ok (res.1, va.install r.deviceId r.channelId res.2.1 res.2.2)

/-- Modelled from the spec: `set(index, element)` of the virtual array (missing
`VirtualMultiArray.h`): "routes, then delegates to write. Same range check." -/
def VirtualMultiArray.set {α : Type} (va : VirtualMultiArray α) (index : Int) (v : α) :
    Except ArrayError (VirtualMultiArray α) :=
  match va.route index with
  | .error e => .error e
  | .ok r =>
    match (va.caches r.deviceId r.channelId).write va.pageSize (va.stores r.deviceId)
        r.pageId r.offsetInPage v with
    | .error e => .error e
    | .ok res => .ok (va.install r.deviceId r.channelId res.1 res.2)

/-- A call made by a user of the virtual array. -/
inductive Op (α : Type) where
  | get (index : Int)
  | set (index : Int) (v : α)

/-- The array after one call; a call that fails is surfaced to its caller and leaves the
array as it was. -/
def VirtualMultiArray.step {α : Type} (va : VirtualMultiArray α) : Op α → VirtualMultiArray α
  | .get i => match va.get i with
    | .ok r => r.2
    | .error _ => va
  | .set i v => match va.set i v with
    | .ok va1 => va1
    | .error _ => va

/-- The array after a sequence of calls. -/
def VirtualMultiArray.run {α : Type} (va : VirtualMultiArray α) (ops : List (Op α)) : VirtualMultiArray α :=
  ops.foldl VirtualMultiArray.step va

/-- The call `set(i, _)` (any value). -/
def Op.isSetAt {α : Type} (i : Int) : Op α → Bool
  | .get _ => false
  | .set j _ => decide (j = i)

/-! ## Consistency of the caches with the backing stores -/

/-- A channel cache is consistent with its device's store: no page is resident twice,
every resident page holds `pageSize` elements, and a clean page equals the store's
content at its addresses. -/
def CacheOK {α : Type} (pageSize : Nat) (c : ChannelCache α) (store : Nat → α) : Prop :=
  (c.resident.map Page.pageId).Nodup ∧
  ∀ pg ∈ c.resident, pg.elems.length = pageSize ∧
    (pg.dirty = false → pg.elems = fetchPage pageSize store pg.pageId)

/-- The authoritative value of the element at address `a` as seen through one channel:
the resident page's copy if the page is resident, the store's otherwise. -/
def cview {α : Type} (pageSize : Nat) (c : ChannelCache α) (store : Nat → α) (a : Nat) : α :=
  match findPage c.resident (a / pageSize) with
  | some pg => (pg.elems[a % pageSize]?).getD (store a)
  | none => store a

/-- The invariant of the virtual array: the page size is positive, every channel cache
is consistent with its device's store, and a page is resident only in the channel that
owns it. -/
def VirtualMultiArray.Inv {α : Type} (va : VirtualMultiArray α) : Prop :=
  0 < va.pageSize ∧
  ∀ d ch, CacheOK va.pageSize (va.caches d ch) (va.stores d) ∧
    ∀ pg ∈ (va.caches d ch).resident, va.owner pg.pageId = (d, ch)

/-- The authoritative value of element `a` of the virtual array. -/
def VirtualMultiArray.view {α : Type} (va : VirtualMultiArray α) (a : Nat) : α :=
  cview va.pageSize (va.caches (va.owner (a / va.pageSize)).1 (va.owner (a / va.pageSize)).2)
    (va.stores (va.owner (a / va.pageSize)).1) a

/-- Two arrays with the same construction parameters. -/
def VirtualMultiArray.SameShape {α : Type} (va vb : VirtualMultiArray α) : Prop :=
  vb.n = va.n ∧ vb.pageSize = va.pageSize ∧ vb.pagesPerLRU = va.pagesPerLRU ∧
    vb.deviceCount = va.deviceCount ∧ vb.channelCounts = va.channelCounts ∧
    vb.assign = va.assign

/-! ## The benchmark on the virtual array -/

/-- Source: the body of the initialisation loop, `test.set(j, Object(j))`: the `long
long` index is converted to the `int` parameter of `Object(int)`; `junk j` is the
uninitialised content of the temporary.  `none` when the constructor writes outside
`data`. -/
def initOps (junk : Int → Fin dataLen → Char) : List Int → Option (List (Op Object))
  | [] => some []
  | j :: js =>
    match Object.new (junk j) (wrapInt32 j), initOps junk js with
    | some o, some ops => some (Op.set j o :: ops)
    | _, _ => none

/-- What stops the benchmark. -/
inductive BenchError where
  | indexNeData
  | arrayError (e : ArrayError)
  | outOfBoundsRead
  deriving DecidableEq, Repr

/-- Source: `const Object&& obj = test.get(rndIndex); if (obj.getId() != rndIndex) throw
std::invalid_argument("Error: index != data");` -/
def readCheck (test : VirtualMultiArray Object) (rndIndex : Int) :
    Except BenchError (VirtualMultiArray Object) :=
  match test.get rndIndex with
  | .error e => .error (.arrayError e)
  | .ok (obj, test1) =>
    match obj.getId with
    | none => .error .outOfBoundsRead
    | some id => if id ≠ rndIndex then .error .indexNeData else .ok test1

/-- Source: the read-back checks of the benchmark, one after the other. -/
def readChecks (test : VirtualMultiArray Object) : List Int → Except BenchError (VirtualMultiArray Object)
  | [] => .ok test
  | i :: is =>
    match readCheck test i with
    | .error e => .error e
    | .ok test1 => readChecks test1 is

end VirtualMultiArrayForMSVC

/-! # Theorems -/

namespace VirtualMultiArrayForMSVC

/-! ## The payload class -/

theorem size_eq : size = 61436 := by decide

theorem dataLen_eq : dataLen = 61436 := by decide

theorem markerIndex_nonneg {id : Int} (h : 0 ≤ id) :
    0 ≤ markerIndex id ∧ markerIndex id < 61436 := by
  unfold markerIndex
  rw [size_eq]
  exact ⟨Int.tmod_nonneg _ h, Int.tmod_lt_of_pos _ (by decide)⟩

theorem markerIndex_neg {id : Int} (h : id < 0) (hd : ¬ (size ∣ id)) : markerIndex id < 0 := by
  unfold markerIndex
  rw [size_eq] at hd ⊢
  have h1 : Int.tdiv id 61436 = - ((-id) / 61436) := by
    rw [← Int.tdiv_eq_ediv (by omega) (by omega), ← Int.neg_tdiv]; simp
  rw [Int.tmod_def, h1]
  omega

theorem readData_inBounds (data : Fin dataLen → Char) {i : Int} (h0 : 0 ≤ i) (h1 : i < 61436) :
    ∃ h : i.toNat < dataLen, readData data i = some (data ⟨i.toNat, h⟩) := by
  have hb : i.toNat < dataLen := by rw [dataLen_eq]; omega
  exact ⟨hb, by simp [readData, h0, hb]⟩

theorem readData_outOfBounds (data : Fin dataLen → Char) {i : Int} (h : i < 0) :
    readData data i = none := by
  have : ¬ (0 ≤ i ∧ i.toNat < dataLen) := fun hc => by omega
  simp [readData, this]

theorem writeData_inBounds (data : Fin dataLen → Char) (c : Char) {i : Int} (h0 : 0 ≤ i)
    (h1 : i < 61436) :
    ∃ h : i.toNat < dataLen,
      writeData data i c = some (Function.update data ⟨i.toNat, h⟩ c) := by
  have hb : i.toNat < dataLen := by rw [dataLen_eq]; omega
  exact ⟨hb, by simp [writeData, h0, hb]⟩

theorem getId_of_nonneg (o : Object) (h : 0 ≤ o.id) :
    ∃ hb : (markerIndex o.id).toNat < dataLen,
      o.getId = if o.data ⟨(markerIndex o.id).toNat, hb⟩ = 'A' then some o.id else some (-1) := by
  obtain ⟨h0, h1⟩ := markerIndex_nonneg h
  obtain ⟨hb, hr⟩ := readData_inBounds o.data h0 h1
  exact ⟨hb, by simp [Object.getId, hr]⟩

theorem getId_of_outOfBounds (o : Object) (h : markerIndex o.id < 0) : o.getId = none := by
  simp [Object.getId, readData_outOfBounds o.data h]

theorem new_getId (junk : Fin dataLen → Char) (p : Int) (hp : 0 ≤ p) :
    ∃ o, Object.new junk p = some o ∧ o.id = p ∧ o.getId = some p := by
  obtain ⟨h0, h1⟩ := markerIndex_nonneg hp
  obtain ⟨hb, hw⟩ := writeData_inBounds junk 'A' h0 h1
  refine ⟨{ data := Function.update junk ⟨(markerIndex p).toNat, hb⟩ 'A', id := p }, ?_, rfl, ?_⟩
  · simp [Object.new, hw]
  · obtain ⟨hb2, hg⟩ := getId_of_nonneg
      { data := Function.update junk ⟨(markerIndex p).toNat, hb⟩ 'A', id := p } hp
    rw [hg]
    simp

theorem getId_eq_index_only_if (o : Object) (i : Int) (hi : 0 ≤ i) (h : o.getId = some i) :
    o.id = i ∧ readData o.data (markerIndex i) = some 'A' := by
  unfold Object.getId at h
  cases hr : readData o.data (markerIndex o.id) with
  | none => rw [hr] at h; cases h
  | some c =>
    rw [hr] at h
    simp only at h
    by_cases hc : c = 'A'
    · rw [if_pos hc] at h
      have hid : o.id = i := Option.some.inj h
      exact ⟨hid, by rw [← hid, hr, hc]⟩
    · rw [if_neg hc] at h
      have : (-1 : Int) = i := Option.some.inj h
      omega

theorem getId_new_ne (junk : Fin dataLen → Char) (i j : Int) (hj : 0 ≤ j) (hne : j ≠ i) :
    ∃ o, Object.new junk j = some o ∧ o.getId ≠ some i := by
  obtain ⟨o, ho, _, hg⟩ := new_getId junk j hj
  exact ⟨o, ho, by rw [hg]; exact fun h => hne (Option.some.inj h)⟩

/-- C2: for every `p >= 0` and whatever the uninitialised bytes `junk` are, `Object(p)` is
built without leaving the array, `Object(p).getId() == p`, and the same holds for a copy
of the object. -/
theorem object_getId_of_new (junk : Fin dataLen → Char) (p : Int) (hp : 0 ≤ p) :
    ∃ o, Object.new junk p = some o ∧ o.getId = some p ∧ o.copy.getId = some p := by
  obtain ⟨o, ho, _, hg⟩ := new_getId junk p hp
  exact ⟨o, ho, hg, hg⟩

/-- Witness of C2 at `p = 5` with every other byte equal to `x`. -/
theorem object_getId_of_new_witness :
    (0 : Int) ≤ 5 ∧ ∃ o, Object.new (fun _ => 'x') 5 = some o ∧ o.getId = some 5 ∧
      o.copy.getId = some 5 :=
  ⟨by decide, object_getId_of_new (fun _ => 'x') 5 (by decide)⟩

theorem getIdFlat_of_getId (outside : Int → Char) (o : Object) (r : Int)
    (h : o.getId = some r) : o.getIdFlat outside = r := by
  unfold Object.getId at h
  unfold Object.getIdFlat readByte
  cases hr : readData o.data (markerIndex o.id) with
  | none => rw [hr] at h; cases h
  | some c =>
    rw [hr] at h
    simp only at h ⊢
    by_cases hc : c = 'A'
    · rw [if_pos hc] at h ⊢
      exact Option.some.inj h
    · rw [if_neg hc] at h ⊢
      exact Option.some.inj h

theorem getIdFlat_id_or_minus_one (outside : Int → Char) (o : Object) :
    o.getIdFlat outside = o.id ∨ o.getIdFlat outside = -1 := by
  unfold Object.getIdFlat
  split
  · exact Or.inl rfl
  · exact Or.inr rfl

theorem readByte_inBounds (outside : Int → Char) (data : Fin dataLen → Char) {i : Int}
    (h0 : 0 ≤ i) (h1 : i < 61436) : readData data i = some (readByte outside data i) := by
  obtain ⟨hb, hr⟩ := readData_inBounds data h0 h1
  unfold readByte
  rw [hr]

/-- C3: for every object state (any id, any data bytes) and whatever the memory around
the array holds, `getId()` returns `id` when the byte at position `id % 61436` is `A` and
`-1` otherwise, so it is always `id` or `-1` (for `Object()` both branches give `-1`), and
it agrees with the bounds-checked `getId` wherever that is defined; for every index
`i >= 0` the check `obj.getId() != rndIndex` passes only if the object's id is `i` and its
marker byte at `i % 61436`, inside the array, is `A`; an object with another id, in
particular `Object(j)` for `j >= 0`, `j != i`, is rejected. -/
theorem getId_is_id_or_minus_one (outside : Int → Char) (o : Object) :
    (o.getIdFlat outside =
      if readByte outside o.data (Int.tmod o.id 61436) = 'A' then o.id else -1) ∧
    (o.getIdFlat outside = o.id ∨ o.getIdFlat outside = -1) ∧
    (∀ junk, (Object.newDefault junk).getIdFlat outside = -1) ∧
    (∀ r : Int, o.getId = some r → o.getIdFlat outside = r) ∧
    (∀ i : Int, 0 ≤ i → o.getIdFlat outside = i →
      o.id = i ∧ readData o.data (Int.tmod i 61436) = some 'A') ∧
    (∀ i : Int, 0 ≤ i → o.id ≠ i → o.getIdFlat outside ≠ i) ∧
    (∀ (junk : Fin dataLen → Char) (i j : Int), 0 ≤ i → 0 ≤ j → j ≠ i →
      ∃ w, Object.new junk j = some w ∧ w.getIdFlat outside = j ∧
        w.getIdFlat outside ≠ i) := by
  have hmi : ∀ x : Int, Int.tmod x 61436 = markerIndex x := by
    intro x
    unfold markerIndex
    rw [size_eq]
  have hwrong : ∀ i : Int, 0 ≤ i → o.id ≠ i → o.getIdFlat outside ≠ i := by
    intro i hi hne he
    rcases getIdFlat_id_or_minus_one outside o with h | h
    · exact hne (h.symm.trans he)
    · rw [h] at he
      omega
  refine ⟨by rw [hmi]; rfl, getIdFlat_id_or_minus_one outside o, ?_,
    getIdFlat_of_getId outside o, ?_, hwrong, ?_⟩
  · intro junk
    rcases getIdFlat_id_or_minus_one outside (Object.newDefault junk) with h | h
    · exact h
    · exact h
  · intro i hi he
    have hid : o.id = i := by
      by_contra hne
      exact hwrong i hi hne he
    refine ⟨hid, ?_⟩
    have hA : readByte outside o.data (markerIndex o.id) = 'A' := by
      by_contra hc
      have hm : o.getIdFlat outside = -1 := by
        unfold Object.getIdFlat
        rw [if_neg hc]
      rw [hm] at he
      omega
    rw [hmi, ← hid]
    obtain ⟨h0, h1⟩ := markerIndex_nonneg (hid ▸ hi : 0 ≤ o.id)
    rw [readByte_inBounds outside o.data h0 h1, hA]
  · intro junk i j _ hj hne
    obtain ⟨w, hw, _, hg⟩ := new_getId junk j hj
    have hf := getIdFlat_of_getId outside w j hg
    exact ⟨w, hw, hf, by rw [hf]; exact hne⟩

/-- Witness of C3: a default-constructed object checked against index 3, the memory
before the array holding `A`; and `Object(5)` checked against index 3. -/
theorem getId_is_id_or_minus_one_witness :
    ((0 : Int) ≤ 3 ∧ (Object.newDefault (fun _ => 'x')).id ≠ 3 ∧
      (Object.newDefault (fun _ => 'x')).getIdFlat (fun _ => 'A') ≠ 3) ∧
    ((0 : Int) ≤ 3 ∧ (0 : Int) ≤ 5 ∧ (5 : Int) ≠ 3 ∧
      ∃ w, Object.new (fun _ => 'x') 5 = some w ∧ w.getIdFlat (fun _ => 'A') = 5 ∧
        w.getIdFlat (fun _ => 'A') ≠ 3) :=
  ⟨⟨by decide, by decide,
    (getId_is_id_or_minus_one (fun _ => 'A') (Object.newDefault (fun _ => 'x'))).2.2.2.2.2.1 3
      (by decide) (by decide)⟩,
   ⟨by decide, by decide, by decide,
    (getId_is_id_or_minus_one (fun _ => 'A') (Object.newDefault (fun _ => 'x'))).2.2.2.2.2.2
      (fun _ => 'x') 3 5 (by decide) (by decide) (by decide)⟩⟩

/-- C10: `size` is `61436` (with `sizeof(int) = 4`) and is the length of `data`; for every
`id >= 0` the marker index `id % size` lies in `[0, 61436)`, so the write of `Object(int)`
and the read of `getId()` stay inside the array; for every negative `id` not divisible by
`size` the index is negative and `getId()` reads outside the array (a negative multiple of
`size` has index 0: the index is inside exactly when `id >= 0` or `size` divides `id`); in
particular `-1 % 61436 = -1` and `getId()` on the default-constructed object reads
outside. -/
theorem marker_index_in_bounds_iff :
    sizeofInt = 4 ∧ size = 61436 ∧ (dataLen : Int) = size ∧
    (∀ id : Int, 0 ≤ id →
      0 ≤ markerIndex id ∧ markerIndex id < 61436 ∧
      (∀ junk, Object.new junk id ≠ none) ∧ (∀ data, Object.getId ⟨data, id⟩ ≠ none)) ∧
    (∀ id : Int, id < 0 → ¬ (size ∣ id) →
      markerIndex id < 0 ∧ (∀ data, readData data (markerIndex id) = none) ∧
      (∀ data, Object.getId ⟨data, id⟩ = none)) ∧
    (∀ id : Int, (0 ≤ markerIndex id ∧ markerIndex id < 61436) ↔ (0 ≤ id ∨ size ∣ id)) ∧
    markerIndex (-1) = -1 ∧ (∀ junk, (Object.newDefault junk).getId = none) := by
  refine ⟨rfl, size_eq, by decide, ?_, ?_, ?_, by decide, ?_⟩
  · intro id h
    refine ⟨(markerIndex_nonneg h).1, (markerIndex_nonneg h).2, ?_, ?_⟩
    · intro junk
      obtain ⟨o, ho, _⟩ := new_getId junk id h
      simp [ho]
    · intro data
      obtain ⟨hb, hg⟩ := getId_of_nonneg ⟨data, id⟩ h
      rw [hg]
      split <;> simp
  · intro id h hd
    have hm := markerIndex_neg h hd
    exact ⟨hm, fun data => readData_outOfBounds data hm,
      fun data => getId_of_outOfBounds ⟨data, id⟩ hm⟩
  · intro id
    constructor
    · intro hin
      by_cases h0 : 0 ≤ id
      · exact Or.inl h0
      · by_cases hd : size ∣ id
        · exact Or.inr hd
        · have := markerIndex_neg (by omega) hd
          omega
    · rintro (h0 | hd)
      · exact markerIndex_nonneg h0
      · have : markerIndex id = 0 := Int.tmod_eq_zero_of_dvd hd
        rw [this]
        decide
  · intro junk
    exact getId_of_outOfBounds _ (show markerIndex (-1) < 0 by decide)

/-- Witness of C10 at `id = 61437` (inside) and `id = -2` (outside). -/
theorem marker_index_in_bounds_iff_witness :
    ((0 : Int) ≤ 61437 ∧ 0 ≤ markerIndex 61437 ∧ markerIndex 61437 < 61436 ∧
      (∀ junk, Object.new junk 61437 ≠ none) ∧ (∀ data, Object.getId ⟨data, 61437⟩ ≠ none)) ∧
    ((-2 : Int) < 0 ∧ ¬ (size ∣ (-2 : Int)) ∧ markerIndex (-2) < 0 ∧
      (∀ data, readData data (markerIndex (-2)) = none) ∧
      (∀ data, Object.getId ⟨data, -2⟩ = none)) :=
  ⟨⟨by decide, marker_index_in_bounds_iff.2.2.2.1 61437 (by decide)⟩,
   ⟨by decide, by decide, marker_index_in_bounds_iff.2.2.2.2.1 (-2) (by decide) (by decide)⟩⟩

/-! ## The configuration of `main` -/

/-- C4 (as stated, refuted): the `n` that `main` computes is not `28800`. -/
theorem n_ne_28800 : ¬ (n = 28800) := by decide

/-- C4 (amended): with `numLRU = {12,12,12,12}` (4 devices x 12 channels), `pageSize = 1`
and `pagesPerLRU = 50`, the `n` that `main` computes, `totalLRUs * pagesPerLRU * pageSize
* 100`, equals `240000`. -/
theorem n_eq_240000 :
    numLRU = [12, 12, 12, 12] ∧ pageSize = 1 ∧ pagesPerLRU = 50 ∧
      n = totalLRUs * pagesPerLRU * pageSize * 100 ∧ n = 240000 := by decide

/-- C5 (as stated, refuted): `numLRU` does not have 12 entries and the channels do not
total 144. -/
theorem numLRU_not_twelve_devices : ¬ (numLRU.length = 12) ∧ ¬ (totalLRUs = 144) := by decide

/-- C5 (amended): the channel-count list `numLRU` has 4 entries, each equal to 12: 12
channels on each of 4 physical devices, 48 channels in total. -/
theorem numLRU_four_devices :
    numLRU.length = 4 ∧ numLRU = List.replicate 4 12 ∧ totalLRUs = 48 := by decide

/-- C6: the cache capacity `numElementsForAllLRUs = (sum of numLRU) * pagesPerLRU *
pageSize` is `2400`, strictly smaller than `n = 240000 = 100 * numElementsForAllLRUs`;
every intermediate product is an `int`, so nothing wraps; the printed array byte size is
100 times the printed cache byte size. -/
theorem cache_smaller_than_dataset :
    totalLRUs = numLRU.sum ∧
    numElementsForAllLRUs = numLRU.sum * pagesPerLRU * pageSize ∧
    numElementsForAllLRUs < n ∧ n = 100 * numElementsForAllLRUs ∧
    numElementsForAllLRUs = 2400 ∧ n = 240000 ∧
    inInt32 numLRU.sum ∧ inInt32 (numLRU.sum * pagesPerLRU) ∧
    inInt32 (numLRU.sum * pagesPerLRU * pageSize) ∧
    inInt32 (numLRU.sum * pagesPerLRU * pageSize * 100) ∧
    arraySizeBytes = n * sizeofObject ∧
    cacheSizeBytes = numElementsForAllLRUs * sizeofObject ∧
    arraySizeBytes = 100 * cacheSizeBytes := by decide

/-- C8: the worker counts (`numThr = 24` and the literal 24 of the initialisation loop) do
not exceed the number of device channels `totalLRUs`; the read loop runs exactly `numThr`
workers and each performs `numTestsPerThread = 8000 / numThr = 333` gets. -/
theorem workers_within_channels (draw : Nat → Nat → ℚ) :
    numThr = 24 ∧ initThreads = 24 ∧ numThr ≤ totalLRUs ∧ initThreads ≤ totalLRUs ∧
    numTestsPerThread = 8000 / numThr ∧ numTestsPerThread = 333 ∧
    ((readWorkers numThr numTestsPerThread draw).length : Int) = numThr ∧
    (readWorkers numThr numTestsPerThread draw).map List.length =
      List.replicate numThr.toNat numTestsPerThread.toNat := by
  refine ⟨rfl, rfl, by decide, by decide, by decide, by decide, ?_, ?_⟩
  · simp [readWorkers, numThr]
  · simp only [readWorkers, workerGets, List.map_map]
    rw [List.eq_replicate_iff]
    simp

/-! ## The loops of `main` -/

theorem n_eq : n = 240000 := by decide

theorem limit_eq : limit = 24 := by decide

theorem mem_initIndices (m j : Int) : j ∈ initIndices m ↔ 0 ≤ j ∧ j < m := by
  simp only [initIndices, List.mem_map, List.mem_range, Int.ofNat_eq_coe]
  constructor
  · rintro ⟨a, ha, rfl⟩
    omega
  · rintro ⟨h0, h1⟩
    exact ⟨j.toNat, by omega, by omega⟩

theorem nodup_initIndices (m : Int) : (initIndices m).Nodup := by
  unfold initIndices
  exact (List.nodup_range _).map (fun a b h => Int.ofNat.inj h)

theorem truncToInt_bounds (r : ℚ) (N : Int) (hN : N ≤ 2147483647) (h0 : 0 ≤ r) (h : r ≤ N) :
    ∃ idx, truncToInt r = some idx ∧ 0 ≤ idx ∧ idx ≤ N ∧ inInt32 idx := by
  have hn : 0 ≤ r.num := Rat.num_nonneg.mpr h0
  have hb : 0 ≤ Int.tdiv r.num r.den ∧ Int.tdiv r.num r.den ≤ N := by
    rw [Int.tdiv_eq_ediv hn (by positivity), ← Rat.floor_def']
    constructor
    · exact Rat.le_floor.mpr (by simpa using h0)
    · have h1 : ((r.floor : Int) : ℚ) ≤ r := Rat.le_floor.mp le_rfl
      have h2 : ((r.floor : Int) : ℚ) ≤ (N : ℚ) := le_trans h1 h
      exact_mod_cast h2
  have hi : inInt32 (Int.tdiv r.num r.den) := ⟨by omega, by omega⟩
  exact ⟨Int.tdiv r.num r.den, by simp [truncToInt, hi], hb.1, hb.2, hi⟩

/-- C9: the initialisation loop calls `set(j, _)` for exactly the indices `0 <= j < n`,
each once; in the read loop, for every sweep value `size` with `limit <= size <= n - 1`
and every drawn real `0 <= r <= size`, the truncated `rndIndex` is defined, fits in `int`
and satisfies `0 <= rndIndex <= n - 1`. -/
theorem benchmark_indices_in_range :
    (∀ j : Int, j ∈ initIndices n ↔ 0 ≤ j ∧ j < n) ∧
    (initIndices n).Nodup ∧
    (∀ j : Int, 0 ≤ j → j < n → (initIndices n).count j = 1) ∧
    (∀ size r : ℚ, (limit : ℚ) ≤ size → size ≤ (n : ℚ) - 1 → 0 ≤ r → r ≤ size →
      ∃ rndIndex, truncToInt r = some rndIndex ∧ 0 ≤ rndIndex ∧ rndIndex ≤ n - 1 ∧
        inInt32 rndIndex) := by
  refine ⟨mem_initIndices n, nodup_initIndices n, ?_, ?_⟩
  · intro j h0 h1
    exact List.count_eq_one_of_mem (nodup_initIndices n) ((mem_initIndices n j).mpr ⟨h0, h1⟩)
  · intro size r _ hs h0 hr
    have h : r ≤ ((n - 1 : Int) : ℚ) := by
      push_cast
      exact le_trans hr hs
    exact truncToInt_bounds r (n - 1) (by decide) h0 h

/-- Witness of C9 at `j = 7`, `size = 1000` and the drawn real `r = 7/2`. -/
theorem benchmark_indices_in_range_witness :
    ((0 : Int) ≤ 7 ∧ (7 : Int) < n ∧ (initIndices n).count 7 = 1) ∧
    ((limit : ℚ) ≤ 1000 ∧ (1000 : ℚ) ≤ (n : ℚ) - 1 ∧ (0 : ℚ) ≤ 7 / 2 ∧ (7 / 2 : ℚ) ≤ 1000 ∧
      ∃ rndIndex, truncToInt (7 / 2) = some rndIndex ∧ 0 ≤ rndIndex ∧ rndIndex ≤ n - 1 ∧
        inInt32 rndIndex) :=
  ⟨⟨by decide, by decide, benchmark_indices_in_range.2.2.1 7 (by decide) (by decide)⟩,
   ⟨by rw [limit_eq]; norm_num, by rw [n_eq]; norm_num, by norm_num, by norm_num,
    benchmark_indices_in_range.2.2.2 1000 (7 / 2) (by rw [limit_eq]; norm_num)
      (by rw [n_eq]; norm_num) (by norm_num) (by norm_num)⟩⟩

theorem two_le_limitOf (numElems : Int) : 2 ≤ limitOf numElems := by
  unfold limitOf
  split <;> omega

theorem sweepLoop_exits (seconds : Nat → ℚ) (limit : ℚ) :
    ∀ (k : Nat) (size : ℚ) (logs : List Graph2D × List Graph2D),
      size * (19 / 20) ^ k < limit →
      ∃ fuel res, ∀ extra, sweepLoop seconds (fuel + 1 + extra) size limit logs = some res := by
  intro k
  induction k with
  | zero =>
    intro size logs h
    refine ⟨0, logs, fun extra => ?_⟩
    have hlt : ¬ (size ≥ limit) := by simpa using h
    rw [show 0 + 1 + extra = extra + 1 by omega]
    simp [sweepLoop, hlt]
  | succ k ih =>
    intro size logs h
    by_cases hge : size ≥ limit
    · have h2 : size * (19 / 20) * (19 / 20) ^ k < limit := by
        rw [pow_succ] at h
        linarith [h, mul_comm ((19 / 20 : ℚ) ^ k) (19 / 20), mul_assoc size ((19/20 : ℚ)) ((19 / 20 : ℚ) ^ k),
          mul_assoc size ((19 / 20 : ℚ) ^ k) (19/20 : ℚ)]
      obtain ⟨fuel, res, hres⟩ := ih (size * (19 / 20))
        (logs.1 ++ [Graph2D.mk (hitRatio size) (bandwidth (seconds logs.1.length))],
         logs.2 ++ [Graph2D.mk (size * (sizeofObject : ℚ) / 1000000)
           (bandwidth (seconds logs.1.length))]) h2
      refine ⟨fuel + 1, res, fun extra => ?_⟩
      rw [show fuel + 1 + 1 + extra = (fuel + 1 + extra) + 1 by omega]
      simp only [sweepLoop, hge, if_true]
      exact hres extra
    · refine ⟨0, logs, fun extra => ?_⟩
      rw [show 0 + 1 + extra = extra + 1 by omega]
      simp [sweepLoop, hge]

theorem sweepLoop_count (seconds : Nat → ℚ) (limit : ℚ) :
    ∀ (k : Nat) (size : ℚ) (logs : List Graph2D × List Graph2D),
      (∀ j, j < k → limit ≤ size * (19 / 20) ^ j) → size * (19 / 20) ^ k < limit →
      ∃ res, (∀ extra, sweepLoop seconds (k + 1 + extra) size limit logs = some res) ∧
        res.1.length = logs.1.length + k ∧ res.2.length = logs.2.length + k := by
  intro k
  induction k with
  | zero =>
    intro size logs _ h
    refine ⟨logs, fun extra => ?_, rfl, rfl⟩
    have hlt : ¬ (size ≥ limit) := by simpa using h
    rw [show 0 + 1 + extra = extra + 1 by omega]
    simp [sweepLoop, hlt]
  | succ k ih =>
    intro size logs hall h
    have hge : size ≥ limit := by simpa using hall 0 (Nat.succ_pos k)
    have hall2 : ∀ j, j < k → limit ≤ size * (19 / 20) * (19 / 20) ^ j := by
      intro j hj
      have := hall (j + 1) (by omega)
      rw [pow_succ] at this
      linarith [this, mul_comm ((19 / 20 : ℚ) ^ j) (19 / 20), mul_assoc size ((19/20 : ℚ)) ((19 / 20 : ℚ) ^ j),
          mul_assoc size ((19 / 20 : ℚ) ^ j) (19/20 : ℚ)]
    have h2 : size * (19 / 20) * (19 / 20) ^ k < limit := by
      rw [pow_succ] at h
      linarith [h, mul_comm ((19 / 20 : ℚ) ^ k) (19 / 20), mul_assoc size ((19/20 : ℚ)) ((19 / 20 : ℚ) ^ k),
          mul_assoc size ((19 / 20 : ℚ) ^ k) (19/20 : ℚ)]
    obtain ⟨res, hres, hl1, hl2⟩ := ih (size * (19 / 20))
      (logs.1 ++ [Graph2D.mk (hitRatio size) (bandwidth (seconds logs.1.length))],
       logs.2 ++ [Graph2D.mk (size * (sizeofObject : ℚ) / 1000000)
         (bandwidth (seconds logs.1.length))]) hall2 h2
    refine ⟨res, fun extra => ?_, ?_, ?_⟩
    · rw [show k + 1 + 1 + extra = (k + 1 + extra) + 1 by omega]
      simp only [sweepLoop, hge, if_true]
      exact hres extra
    · simp only [List.length_append, List.length_singleton] at hl1
      omega
    · simp only [List.length_append, List.length_singleton] at hl2
      omega

theorem sweep_pow_exists (size limit : ℚ) (hl : 0 < limit) :
    ∃ k : Nat, size * (19 / 20) ^ k < limit := by
  by_cases hs : size ≤ 0
  · exact ⟨0, by simpa using lt_of_le_of_lt hs hl⟩
  · have hpos : 0 < size := lt_of_not_ge hs
    obtain ⟨k, hk⟩ := exists_pow_lt_of_lt_one (div_pos hl hpos) (by norm_num : (19 / 20 : ℚ) < 1)
    refine ⟨k, ?_⟩
    rw [lt_div_iff₀ hpos] at hk
    linarith [mul_comm size ((19 / 20 : ℚ) ^ k)]

theorem sweep_ge_of_lt_180 (k : Nat) (hk : k < 180) : (24 : ℚ) ≤ 239999 * (19 / 20) ^ k := by
  have h1 : (19 / 20 : ℚ) ^ 179 ≤ (19 / 20) ^ k :=
    pow_le_pow_of_le_one (by norm_num) (by norm_num) (by omega)
  have h2 : (24 : ℚ) ≤ 239999 * (19 / 20) ^ 179 := by norm_num
  linarith

/-- C7: `limit = max(numElementsForAllLRUs / 100, 2)` is always at least 2; the sweep loop
`for (double size = n - 1; size >= limit; size *= 0.95)`, with `size` an exact rational,
terminates for every `n` and every `numElementsForAllLRUs`; with `n = 240000` and
`limit = 24` the first `k` with `239999 * 0.95^k < 24` is 180, the body runs exactly 180
times and each log vector ends with 180 points. -/
theorem sweep_terminates_after_180 (seconds : Nat → ℚ) :
    (∀ numElems : Int, 2 ≤ limitOf numElems) ∧
    (∀ (numElems m : Int) (logs : List Graph2D × List Graph2D),
      ∃ fuel res, ∀ extra,
        sweepLoop seconds (fuel + 1 + extra) ((m : ℚ) - 1) (limitOf numElems) logs = some res) ∧
    (n : ℚ) - 1 = 239999 ∧ (limit : ℚ) = 24 ∧
    (∀ k : Nat, k < 180 → (24 : ℚ) ≤ 239999 * (19 / 20) ^ k) ∧
    (239999 : ℚ) * (19 / 20) ^ 180 < 24 ∧
    (∃ res, (∀ extra, sweepLoop seconds (181 + extra) ((n : ℚ) - 1) limit ([], []) = some res) ∧
      res.1.length = 180 ∧ res.2.length = 180) := by
  have hn : (n : ℚ) - 1 = 239999 := by rw [n_eq]; norm_num
  have hl : (limit : ℚ) = 24 := by rw [limit_eq]; norm_num
  refine ⟨two_le_limitOf, ?_, hn, hl, sweep_ge_of_lt_180, by norm_num, ?_⟩
  · intro numElems m logs
    have hpos : (0 : ℚ) < (limitOf numElems : ℚ) := by
      have := two_le_limitOf numElems
      exact_mod_cast (by omega : (0 : Int) < limitOf numElems)
    obtain ⟨k, hk⟩ := sweep_pow_exists ((m : ℚ) - 1) (limitOf numElems) hpos
    exact sweepLoop_exits seconds _ k _ logs hk
  · rw [hn, hl]
    obtain ⟨res, hres, h1, h2⟩ := sweepLoop_count seconds 24 180 239999 ([], [])
      (fun j hj => sweep_ge_of_lt_180 j hj) (by norm_num)
    exact ⟨res, hres, by simpa using h1, by simpa using h2⟩

/-- Witness of C7 at iteration `k = 179`, the last one whose size is still at least the
limit. -/
theorem sweep_terminates_after_180_witness :
    179 < 180 ∧ (24 : ℚ) ≤ 239999 * (19 / 20) ^ 179 :=
  ⟨by decide, (sweep_terminates_after_180 (fun _ => 1)).2.2.2.2.1 179 (by decide)⟩

end VirtualMultiArrayForMSVC

namespace VirtualMultiArrayForMSVC

/-! ## The virtual array: pages and stores -/

section PageLemmas

variable {α : Type}

theorem findPage_some {pages : List (Page α)} {pid : Nat} {pg : Page α}
    (h : findPage pages pid = some pg) : pg ∈ pages ∧ pg.pageId = pid := by
  unfold findPage at h
  exact ⟨List.mem_of_find?_eq_some h, by simpa using List.find?_some h⟩

theorem findPage_none {pages : List (Page α)} {pid : Nat} :
    findPage pages pid = none ↔ ∀ pg ∈ pages, pg.pageId ≠ pid := by
  unfold findPage
  simp [List.find?_eq_none]

theorem findPage_of_mem {pages : List (Page α)} (hnd : (pages.map Page.pageId).Nodup)
    {pg : Page α} (hm : pg ∈ pages) : findPage pages pg.pageId = some pg := by
  induction pages with
  | nil => simp at hm
  | cons q qs ih =>
    simp only [List.map_cons, List.nodup_cons] at hnd
    rcases List.mem_cons.mp hm with rfl | hq
    · simp [findPage]
    · have hne : q.pageId ≠ pg.pageId := by
        intro he
        exact hnd.1 (he ▸ List.mem_map_of_mem Page.pageId hq)
      have := ih hnd.2 hq
      unfold findPage at this ⊢
      simp [List.find?_cons, hne, this]

theorem findPage_map {pages : List (Page α)} (f : Page α → Page α)
    (hf : ∀ p, (f p).pageId = p.pageId) (pid : Nat) :
    findPage (pages.map f) pid = (findPage pages pid).map f := by
  induction pages with
  | nil => simp [findPage]
  | cons q qs ih =>
    unfold findPage at ih ⊢
    by_cases hq : q.pageId = pid
    · simp [List.find?_cons, hf, hq]
    · simp [List.find?_cons, hf, hq, ih]

theorem findPage_filter_ne {pages : List (Page α)} (vid pid : Nat) (h : pid ≠ vid) :
    findPage (pages.filter (fun p => decide (p.pageId ≠ vid))) pid = findPage pages pid := by
  induction pages with
  | nil => rfl
  | cons q qs ih =>
    unfold findPage at ih ⊢
    by_cases hq : q.pageId = vid
    · have hne : q.pageId ≠ pid := fun he => h (he ▸ hq)
      rw [List.filter_cons_of_neg (by simpa using hq), List.find?_cons_of_neg _ (by simpa using hne)]
      exact ih
    · rw [List.filter_cons_of_pos (by simpa using hq)]
      by_cases hp : q.pageId = pid
      · rw [List.find?_cons_of_pos _ (by simpa using hp), List.find?_cons_of_pos _ (by simpa using hp)]
      · rw [List.find?_cons_of_neg _ (by simpa using hp), List.find?_cons_of_neg _ (by simpa using hp)]
        exact ih

theorem findPage_filter_self {pages : List (Page α)} (vid : Nat) :
    findPage (pages.filter (fun p => decide (p.pageId ≠ vid))) vid = none := by
  rw [findPage_none]
  intro pg hpg
  simpa using (List.mem_filter.mp hpg).2

theorem lruPage_mem {pages : List (Page α)} {v : Page α} (h : lruPage pages = some v) :
    v ∈ pages := by
  induction pages generalizing v with
  | nil => simp [lruPage] at h
  | cons q qs ih =>
    unfold lruPage at h
    cases hq : lruPage qs with
    | none =>
      rw [hq] at h
      simp at h
      simp [h]
    | some w =>
      rw [hq] at h
      simp only at h
      split at h
      · simp at h; simp [h]
      · simp at h
        subst h
        exact List.mem_cons_of_mem _ (ih hq)

theorem pageAddr_div {ps : Nat} (hps : 0 < ps) (pid k : Nat) (hk : k < ps) :
    (pid * ps + k) / ps = pid := by
  rw [Nat.mul_comm, Nat.mul_add_div hps, Nat.div_eq_of_lt hk, Nat.add_zero]

theorem pageAddr_mod {ps : Nat} (pid k : Nat) (hk : k < ps) :
    (pid * ps + k) % ps = k := by
  rw [Nat.mul_comm, Nat.mul_add_mod, Nat.mod_eq_of_lt hk]

theorem pageAddr_eq (ps a : Nat) : (a / ps) * ps + a % ps = a := by
  rw [Nat.mul_comm]
  exact Nat.div_add_mod a ps

theorem fetchPage_length (ps : Nat) (s : Nat → α) (pid : Nat) :
    (fetchPage ps s pid).length = ps := by
  simp [fetchPage]

theorem fetchPage_getElem? (ps : Nat) (s : Nat → α) (pid k : Nat) (hk : k < ps) :
    (fetchPage ps s pid)[k]? = some (s (pid * ps + k)) := by
  simp [fetchPage, List.getElem?_map, List.getElem?_range hk]

theorem fetchPage_congr (ps : Nat) (s t : Nat → α) (pid : Nat)
    (h : ∀ k, k < ps → t (pid * ps + k) = s (pid * ps + k)) :
    fetchPage ps t pid = fetchPage ps s pid := by
  unfold fetchPage
  apply List.map_congr_left
  intro k hk
  exact h k (List.mem_range.mp hk)

theorem fetchPage_at (ps : Nat) (hps : 0 < ps) (s : Nat → α) (a : Nat) (d : α) :
    ((fetchPage ps s (a / ps))[a % ps]?).getD d = s a := by
  rw [fetchPage_getElem? ps s (a / ps) (a % ps) (Nat.mod_lt a hps), pageAddr_eq]
  rfl

end PageLemmas

end VirtualMultiArrayForMSVC

namespace VirtualMultiArrayForMSVC

/-! ## The virtual array: one channel -/

section ChannelLemmas

variable {α : Type}

theorem CacheOK.store_congr {ps : Nat} {c : ChannelCache α} {s t : Nat → α}
    (hok : CacheOK ps c s)
    (h : ∀ pg ∈ c.resident, ∀ k, k < ps → t (pg.pageId * ps + k) = s (pg.pageId * ps + k)) :
    CacheOK ps c t := by
  refine ⟨hok.1, fun pg hpg => ⟨(hok.2 pg hpg).1, fun hd => ?_⟩⟩
  rw [(hok.2 pg hpg).2 hd]
  exact (fetchPage_congr ps s t pg.pageId (h pg hpg)).symm

theorem cview_resident {ps : Nat} (hps : 0 < ps) {c : ChannelCache α} {s : Nat → α}
    (hok : CacheOK ps c s) {pg : Page α} (hpg : pg ∈ c.resident) (a : Nat)
    (ha : a / ps = pg.pageId) :
    ∃ e, pg.elems[a % ps]? = some e ∧ cview ps c s a = e := by
  have hlen := (hok.2 pg hpg).1
  have hlt : a % ps < pg.elems.length := by rw [hlen]; exact Nat.mod_lt a hps
  refine ⟨pg.elems[a % ps], List.getElem?_eq_getElem hlt, ?_⟩
  unfold cview
  rw [ha, findPage_of_mem hok.1 hpg]
  simp [List.getElem?_eq_getElem hlt]

theorem cview_absent {ps : Nat} {c : ChannelCache α} {s : Nat → α} (a : Nat)
    (h : ∀ q ∈ c.resident, q.pageId ≠ a / ps) : cview ps c s a = s a := by
  unfold cview
  rw [findPage_none.mpr h]

theorem cview_clean {ps : Nat} (hps : 0 < ps) {c : ChannelCache α} {s : Nat → α}
    (hok : CacheOK ps c s) {pg : Page α} (hpg : pg ∈ c.resident) (hd : pg.dirty = false)
    (a : Nat) (ha : a / ps = pg.pageId) : cview ps c s a = s a := by
  unfold cview
  rw [ha, findPage_of_mem hok.1 hpg]
  simp only
  rw [(hok.2 pg hpg).2 hd, ← ha]
  exact fetchPage_at ps hps s a (s a)

theorem touch_spec {ps : Nat} {c : ChannelCache α} {s : Nat → α} (hok : CacheOK ps c s)
    (pid : Nat) :
    CacheOK ps (c.touch pid) s ∧ (∀ a, cview ps (c.touch pid) s a = cview ps c s a) ∧
      (∀ pg ∈ (c.touch pid).resident, ∃ q ∈ c.resident, q.pageId = pg.pageId) ∧
      (∀ pg, findPage c.resident pid = some pg → ∃ pg2, findPage (c.touch pid).resident pid = some pg2) := by
  have hf : ∀ p : Page α,
      (if p.pageId = pid then { p with lastUseOrder := c.clock } else p).pageId = p.pageId := by
    intro p; split <;> rfl
  have hids : (c.touch pid).resident.map Page.pageId = c.resident.map Page.pageId := by
    simp only [ChannelCache.touch, List.map_map]
    apply List.map_congr_left
    intro p _
    exact hf p
  refine ⟨⟨by rw [hids]; exact hok.1, ?_⟩, ?_, ?_, ?_⟩
  · intro pg hpg
    simp only [ChannelCache.touch, List.mem_map] at hpg
    obtain ⟨q, hq, rfl⟩ := hpg
    have := hok.2 q hq
    split <;> exact this
  · intro a
    unfold cview
    simp only [ChannelCache.touch]
    rw [findPage_map _ hf]
    cases findPage c.resident (a / ps) with
    | none => rfl
    | some q =>
      simp only [Option.map_some']
      split <;> rfl
  · intro pg hpg
    simp only [ChannelCache.touch, List.mem_map] at hpg
    obtain ⟨q, hq, rfl⟩ := hpg
    exact ⟨q, hq, (hf q).symm⟩
  · intro pg hpg
    simp only [ChannelCache.touch]
    rw [findPage_map _ hf, hpg]
    exact ⟨_, rfl⟩

theorem evictIfFull_of_victim {ps : Nat} {c : ChannelCache α} {s : Nat → α} {v : Page α}
    (hfull : c.capacity ≤ c.resident.length) (hv : lruPage c.resident = some v) :
    c.evictIfFull ps s =
      (ChannelCache.mk c.capacity (c.resident.filter (fun p => decide (p.pageId ≠ v.pageId)))
        c.clock, if v.dirty then writeBack ps s v else s) := by
  unfold ChannelCache.evictIfFull
  rw [if_pos hfull, hv]

theorem evictIfFull_of_no_victim {ps : Nat} {c : ChannelCache α} {s : Nat → α}
    (h : ¬ (c.capacity ≤ c.resident.length) ∨ lruPage c.resident = none) :
    c.evictIfFull ps s = (c, s) := by
  unfold ChannelCache.evictIfFull
  rcases h with h | h
  · rw [if_neg h]
  · rw [h]
    split <;> rfl

theorem evictIfFull_spec {ps : Nat} (hps : 0 < ps) {c : ChannelCache α} {s : Nat → α}
    (hok : CacheOK ps c s) :
    CacheOK ps (c.evictIfFull ps s).1 (c.evictIfFull ps s).2 ∧
      (∀ a, cview ps (c.evictIfFull ps s).1 (c.evictIfFull ps s).2 a = cview ps c s a) ∧
      (∀ pg ∈ (c.evictIfFull ps s).1.resident, pg ∈ c.resident) ∧
      (∀ a, (∀ q ∈ c.resident, q.pageId ≠ a / ps) → (c.evictIfFull ps s).2 a = s a) := by
  by_cases hfull : c.capacity ≤ c.resident.length
  · cases hv : lruPage c.resident with
    | none =>
      rw [evictIfFull_of_no_victim (Or.inr hv)]
      exact ⟨hok, fun _ => rfl, fun _ h => h, fun _ _ => rfl⟩
    | some v =>
      rw [evictIfFull_of_victim hfull hv]
      have hvm : v ∈ c.resident := lruPage_mem hv
      simp only
      -- the store after the write-back differs from `s` only inside the victim's page
      have hst : ∀ a, a / ps ≠ v.pageId →
          (if v.dirty then writeBack ps s v else s) a = s a := by
        intro a ha
        split
        · simp [writeBack, ha]
        · rfl
      have hsub : ∀ pg ∈ c.resident.filter (fun p => decide (p.pageId ≠ v.pageId)),
          pg ∈ c.resident ∧ pg.pageId ≠ v.pageId := by
        intro pg hpg
        have := List.mem_filter.mp hpg
        exact ⟨this.1, by simpa using this.2⟩
      refine ⟨⟨?_, ?_⟩, ?_, fun pg hpg => (hsub pg hpg).1, ?_⟩
      · exact hok.1.sublist ((List.filter_sublist _).map _)
      · intro pg hpg
        obtain ⟨hm, hne⟩ := hsub pg hpg
        refine ⟨(hok.2 pg hm).1, fun hd => ?_⟩
        rw [(hok.2 pg hm).2 hd]
        refine (fetchPage_congr ps s _ pg.pageId (fun k hk => hst _ ?_)).symm
        rw [pageAddr_div hps pg.pageId k hk]
        exact hne
      · intro a
        by_cases ha : a / ps = v.pageId
        · -- the victim's page: now served by the store
          rw [cview_absent a (fun q hq => by rw [ha]; exact (hsub q hq).2)]
          cases hd : v.dirty with
          | false =>
            simp only [Bool.false_eq_true, if_false]
            exact (cview_clean hps hok hvm hd a ha).symm
          | true =>
            simp only [if_true]
            obtain ⟨e, he, hc⟩ := cview_resident hps hok hvm a ha
            rw [hc]
            simp [writeBack, ha, he]
        · unfold cview
          simp only
          rw [findPage_filter_ne v.pageId (a / ps) ha, hst a ha]
      · intro a ha
        exact hst a (fun he => ha v hvm he.symm)
  · rw [evictIfFull_of_no_victim (Or.inl hfull)]
    exact ⟨hok, fun _ => rfl, fun _ h => h, fun _ _ => rfl⟩

end ChannelLemmas

end VirtualMultiArrayForMSVC

namespace VirtualMultiArrayForMSVC

section ResidencyLemmas

variable {α : Type}

theorem ensureResident_of_resident {ps : Nat} {c : ChannelCache α} {s : Nat → α} {pid : Nat}
    {pg : Page α} (h : findPage c.resident pid = some pg) :
    c.ensureResident ps s pid = (c.touch pid, s) := by
  unfold ChannelCache.ensureResident
  rw [h]

theorem ensureResident_of_absent {ps : Nat} {c : ChannelCache α} {s : Nat → α} {pid : Nat}
    (h : findPage c.resident pid = none) :
    c.ensureResident ps s pid =
      (ChannelCache.mk (c.evictIfFull ps s).1.capacity
        (Page.mk pid (fetchPage ps (c.evictIfFull ps s).2 pid) false
          (c.evictIfFull ps s).1.clock :: (c.evictIfFull ps s).1.resident)
        ((c.evictIfFull ps s).1.clock + 1), (c.evictIfFull ps s).2) := by
  unfold ChannelCache.ensureResident
  rw [h]

theorem ensureResident_spec {ps : Nat} (hps : 0 < ps) {c : ChannelCache α} {s : Nat → α}
    (hok : CacheOK ps c s) (pid : Nat) :
    CacheOK ps (c.ensureResident ps s pid).1 (c.ensureResident ps s pid).2 ∧
      (∀ a, cview ps (c.ensureResident ps s pid).1 (c.ensureResident ps s pid).2 a =
        cview ps c s a) ∧
      (∀ pg ∈ (c.ensureResident ps s pid).1.resident,
        pg.pageId = pid ∨ ∃ q ∈ c.resident, q.pageId = pg.pageId) ∧
      (∀ a, (∀ q ∈ c.resident, q.pageId ≠ a / ps) → (c.ensureResident ps s pid).2 a = s a) ∧
      (∃ pg, findPage (c.ensureResident ps s pid).1.resident pid = some pg) := by
  cases hf : findPage c.resident pid with
  | some pg =>
    rw [ensureResident_of_resident hf]
    obtain ⟨h1, h2, h3, h4⟩ := touch_spec hok pid
    exact ⟨h1, h2, fun q hq => Or.inr (h3 q hq), fun _ _ => rfl, h4 pg hf⟩
  | none =>
    rw [ensureResident_of_absent hf]
    obtain ⟨h1, h2, h3, h4⟩ := evictIfFull_spec (s := s) hps hok
    have habs : ∀ q ∈ (c.evictIfFull ps s).1.resident, q.pageId ≠ pid :=
      fun q hq => findPage_none.mp hf q (h3 q hq)
    simp only
    refine ⟨⟨?_, ?_⟩, ?_, ?_, h4, ?_⟩
    · simp only [List.map_cons, List.nodup_cons]
      refine ⟨?_, h1.1⟩
      intro hm
      obtain ⟨q, hq, hqe⟩ := List.mem_map.mp hm
      exact habs q hq hqe
    · intro pg hpg
      rcases List.mem_cons.mp hpg with rfl | hq
      · exact ⟨fetchPage_length _ _ _, fun _ => rfl⟩
      · exact h1.2 pg hq
    · intro a
      rw [← h2 a]
      by_cases ha : a / ps = pid
      · have hR : cview ps (c.evictIfFull ps s).1 (c.evictIfFull ps s).2 a =
            (c.evictIfFull ps s).2 a :=
          cview_absent a (fun q hq => by rw [ha]; exact habs q hq)
        rw [hR]
        unfold cview
        simp only [findPage, ha, List.find?_cons_of_pos, decide_True]
        rw [← ha]
        exact fetchPage_at ps hps _ a _
      · unfold cview
        have hne : ¬ (pid = a / ps) := fun he => ha he.symm
        simp only [findPage, List.find?_cons_of_neg, hne, decide_False, Bool.false_eq_true,
          not_false_eq_true]
    · intro pg hpg
      rcases List.mem_cons.mp hpg with rfl | hq
      · exact Or.inl rfl
      · exact Or.inr ⟨pg, h3 pg hq, rfl⟩
    · exact ⟨_, by unfold findPage; exact List.find?_cons_of_pos _ (by simp)⟩

theorem read_spec {ps : Nat} (hps : 0 < ps) {c : ChannelCache α} {s : Nat → α}
    (hok : CacheOK ps c s) (pid off : Nat) (hoff : off < ps) :
    c.read ps s pid off =
      .ok (cview ps c s (pid * ps + off), (c.ensureResident ps s pid).1,
        (c.ensureResident ps s pid).2) := by
  obtain ⟨h1, h2, _, _, ⟨pg, hpg⟩⟩ := ensureResident_spec (s := s) hps hok pid
  obtain ⟨hm, hid⟩ := findPage_some hpg
  obtain ⟨e, he, hc⟩ := cview_resident hps h1 hm (pid * ps + off)
    (by rw [pageAddr_div hps pid off hoff, hid])
  rw [pageAddr_mod pid off hoff] at he
  unfold ChannelCache.read
  simp only [hpg, he]
  rw [← h2, hc]

theorem write_spec {ps : Nat} (hps : 0 < ps) {c : ChannelCache α} {s : Nat → α}
    (hok : CacheOK ps c s) (pid off : Nat) (hoff : off < ps) (v : α) :
    ∃ c2 s2, c.write ps s pid off v = .ok (c2, s2) ∧ CacheOK ps c2 s2 ∧
      (∀ a, cview ps c2 s2 a = if a = pid * ps + off then v else cview ps c s a) ∧
      (∀ pg ∈ c2.resident, pg.pageId = pid ∨ ∃ q ∈ c.resident, q.pageId = pg.pageId) ∧
      (∀ a, (∀ q ∈ c.resident, q.pageId ≠ a / ps) → s2 a = s a) := by
  obtain ⟨h1, h2, h3, h4, ⟨pg, hpg⟩⟩ := ensureResident_spec (s := s) hps hok pid
  obtain ⟨hm, hid⟩ := findPage_some hpg
  have hlen : off < pg.elems.length := by rw [(h1.2 pg hm).1]; exact hoff
  have hf : ∀ p : Page α,
      (if p.pageId = pid then { p with elems := p.elems.set off v, dirty := true }
        else p).pageId = p.pageId := by
    intro p; split <;> rfl
  refine ⟨_, _, by unfold ChannelCache.write; simp only [hpg, if_pos hlen]; rfl, ⟨?_, ?_⟩,
    ?_, ?_, h4⟩
  · have hids : ((c.ensureResident ps s pid).1.resident.map
        (fun p => if p.pageId = pid then { p with elems := p.elems.set off v, dirty := true }
          else p)).map Page.pageId = (c.ensureResident ps s pid).1.resident.map Page.pageId := by
      rw [List.map_map]
      exact List.map_congr_left (fun p _ => hf p)
    simp only
    rw [hids]
    exact h1.1
  · intro q hq
    simp only [List.mem_map] at hq
    obtain ⟨p, hp, rfl⟩ := hq
    by_cases hpp : p.pageId = pid
    · simp only [if_pos hpp, List.length_set]
      exact ⟨(h1.2 p hp).1, fun hd => by simp at hd⟩
    · simp only [if_neg hpp]
      exact h1.2 p hp
  · intro a
    rw [← h2 a]
    unfold cview
    simp only
    rw [findPage_map _ hf]
    by_cases ha : a / ps = pid
    · rw [ha, hpg]
      simp only [Option.map_some', if_pos hid]
      by_cases hao : a = pid * ps + off
      · have hmod : a % ps = off := by rw [hao]; exact pageAddr_mod pid off hoff
        simp [hao, hmod, List.getElem?_set, hlen, pageAddr_mod pid off hoff]
      · have hmod : off ≠ a % ps := by
          intro he
          apply hao
          rw [← ha, he]
          exact (pageAddr_eq ps a).symm
        simp [hao, List.getElem?_set, hmod]
    · have hao : a ≠ pid * ps + off := by
        intro he
        apply ha
        rw [he]
        exact pageAddr_div hps pid off hoff
      rw [if_neg hao]
      cases hq : findPage (c.ensureResident ps s pid).1.resident (a / ps) with
      | none => rfl
      | some q =>
        have hqid := (findPage_some hq).2
        have hne : ¬ (q.pageId = pid) := fun he => ha (hqid ▸ he)
        simp only [Option.map_some', if_neg hne]
  · intro q hq
    simp only [List.mem_map] at hq
    obtain ⟨p, hp, rfl⟩ := hq
    rw [hf p]
    exact h3 p hp

end ResidencyLemmas

end VirtualMultiArrayForMSVC

namespace VirtualMultiArrayForMSVC

/-! ## The virtual array: `get` and `set` -/

section ArrayLemmas

variable {α : Type}

theorem cview_store_congr {ps : Nat} (c : ChannelCache α) {s t : Nat → α} (a : Nat)
    (h : t a = s a) : cview ps c t a = cview ps c s a := by
  unfold cview
  rw [h]

theorem SameShape.refl (va : VirtualMultiArray α) : va.SameShape va :=
  ⟨rfl, rfl, rfl, rfl, rfl, rfl⟩

theorem SameShape.trans {va vb vc : VirtualMultiArray α} (h1 : va.SameShape vb)
    (h2 : vb.SameShape vc) : va.SameShape vc := by
  unfold VirtualMultiArray.SameShape at *
  refine ⟨h2.1.trans h1.1, h2.2.1.trans h1.2.1, h2.2.2.1.trans h1.2.2.1, ?_, ?_, ?_⟩
  · exact h2.2.2.2.1.trans h1.2.2.2.1
  · exact h2.2.2.2.2.1.trans h1.2.2.2.2.1
  · exact h2.2.2.2.2.2.trans h1.2.2.2.2.2

theorem SameShape.owner {va vb : VirtualMultiArray α} (h : va.SameShape vb) (p : Nat) :
    vb.owner p = va.owner p := by
  obtain ⟨_, _, _, a4, a5, a6⟩ := h
  unfold VirtualMultiArray.owner
  rw [a4, a5, a6]

theorem install_spec (va : VirtualMultiArray α) (hinv : va.Inv) (pid : Nat) (c2 : ChannelCache α)
    (s2 : Nat → α) (hok : CacheOK va.pageSize c2 s2)
    (hids : ∀ pg ∈ c2.resident, pg.pageId = pid ∨
      ∃ q ∈ (va.caches (va.owner pid).1 (va.owner pid).2).resident, q.pageId = pg.pageId)
    (hst : ∀ a, (∀ q ∈ (va.caches (va.owner pid).1 (va.owner pid).2).resident,
      q.pageId ≠ a / va.pageSize) → s2 a = va.stores (va.owner pid).1 a) :
    (va.install (va.owner pid).1 (va.owner pid).2 c2 s2).Inv ∧
      va.SameShape (va.install (va.owner pid).1 (va.owner pid).2 c2 s2) ∧
      ∀ a, (va.install (va.owner pid).1 (va.owner pid).2 c2 s2).view a =
        if va.owner (a / va.pageSize) = va.owner pid then cview va.pageSize c2 s2 a
        else va.view a := by
  obtain ⟨hps, hall⟩ := hinv
  -- pages resident in the operated channel are owned by it
  have hown : ∀ q ∈ (va.caches (va.owner pid).1 (va.owner pid).2).resident,
      va.owner q.pageId = va.owner pid := fun q hq => (hall _ _).2 q hq
  -- the store of the device is unchanged outside the pages of the operated channel
  have hfar : ∀ a, va.owner (a / va.pageSize) ≠ va.owner pid →
      s2 a = va.stores (va.owner pid).1 a := by
    intro a ha
    apply hst
    intro q hq he
    exact ha (he ▸ hown q hq)
  refine ⟨⟨hps, ?_⟩, SameShape.refl va, ?_⟩
  · intro d ch
    show CacheOK va.pageSize
        (if d = (va.owner pid).1 ∧ ch = (va.owner pid).2 then c2 else va.caches d ch)
        (if d = (va.owner pid).1 then s2 else va.stores d) ∧
      ∀ pg ∈ (if d = (va.owner pid).1 ∧ ch = (va.owner pid).2 then c2
        else va.caches d ch).resident, va.owner pg.pageId = (d, ch)
    by_cases hd : d = (va.owner pid).1
    · by_cases hc : ch = (va.owner pid).2
      · rw [if_pos ⟨hd, hc⟩, if_pos hd]
        refine ⟨hok, fun pg hpg => ?_⟩
        have hdc : va.owner pid = (d, ch) := Prod.ext hd.symm hc.symm
        rcases hids pg hpg with h | ⟨q, hq, hqe⟩
        · rw [h, hdc]
        · rw [← hqe, hown q hq, hdc]
      · rw [if_neg (fun h => hc h.2), if_pos hd]
        refine ⟨(hd ▸ (hall d ch).1 : CacheOK va.pageSize (va.caches d ch)
          (va.stores (va.owner pid).1)).store_congr ?_, (hall d ch).2⟩
        intro pg hpg k hk
        apply hfar
        rw [pageAddr_div hps pg.pageId k hk, (hall d ch).2 pg hpg]
        intro he
        exact hc (congrArg Prod.snd he)
    · rw [if_neg (fun h => hd h.1), if_neg hd]
      exact hall d ch
  · intro a
    show cview va.pageSize
        (if (va.owner (a / va.pageSize)).1 = (va.owner pid).1 ∧
            (va.owner (a / va.pageSize)).2 = (va.owner pid).2 then c2
          else va.caches (va.owner (a / va.pageSize)).1 (va.owner (a / va.pageSize)).2)
        (if (va.owner (a / va.pageSize)).1 = (va.owner pid).1 then s2
          else va.stores (va.owner (a / va.pageSize)).1) a = _
    by_cases ho : va.owner (a / va.pageSize) = va.owner pid
    · rw [if_pos ho, if_pos ⟨congrArg Prod.fst ho, congrArg Prod.snd ho⟩,
        if_pos (congrArg Prod.fst ho)]
    · rw [if_neg ho, if_neg (fun h => ho (Prod.ext h.1 h.2))]
      by_cases hd : (va.owner (a / va.pageSize)).1 = (va.owner pid).1
      · rw [if_pos hd]
        unfold VirtualMultiArray.view
        rw [cview_store_congr _ a (hfar a ho), hd]
      · rw [if_neg hd]
        rfl

theorem route_spec (va : VirtualMultiArray α) (i : Int) (h0 : 0 ≤ i) (h1 : i < va.n) :
    va.route i = .ok
      { deviceId := (va.owner (i.toNat / va.pageSize)).1,
        channelId := (va.owner (i.toNat / va.pageSize)).2,
        pageId := i.toNat / va.pageSize, offsetInPage := i.toNat % va.pageSize } := by
  unfold VirtualMultiArray.route
  rw [if_pos ⟨h0, h1⟩]

theorem get_spec (va : VirtualMultiArray α) (hinv : va.Inv) (i : Int) (h0 : 0 ≤ i) (h1 : i < va.n) :
    ∃ vb, va.get i = .ok (va.view i.toNat, vb) ∧ vb.Inv ∧ va.SameShape vb ∧
      ∀ a, vb.view a = va.view a := by
  have hps := hinv.1
  have hok := (hinv.2 (va.owner (i.toNat / va.pageSize)).1
    (va.owner (i.toNat / va.pageSize)).2).1
  obtain ⟨e1, e2, e3, e4, _⟩ := ensureResident_spec hps hok (i.toNat / va.pageSize)
  obtain ⟨i1, i2, i3⟩ := install_spec va hinv (i.toNat / va.pageSize) _ _ e1 e3 e4
  refine ⟨_, ?_, i1, i2, ?_⟩
  · unfold VirtualMultiArray.get
    rw [route_spec va i h0 h1]
    simp only
    rw [read_spec hps hok _ _ (Nat.mod_lt _ hps), pageAddr_eq]
    rfl
  · intro a
    rw [i3 a]
    split
    · rename_i ho
      rw [e2 a]
      unfold VirtualMultiArray.view
      rw [ho]
    · rfl

theorem set_spec (va : VirtualMultiArray α) (hinv : va.Inv) (i : Int) (h0 : 0 ≤ i) (h1 : i < va.n)
    (v : α) :
    ∃ vb, va.set i v = .ok vb ∧ vb.Inv ∧ va.SameShape vb ∧
      ∀ a, vb.view a = if a = i.toNat then v else va.view a := by
  have hps := hinv.1
  have hok := (hinv.2 (va.owner (i.toNat / va.pageSize)).1
    (va.owner (i.toNat / va.pageSize)).2).1
  obtain ⟨c2, s2, w1, w2, w3, w4, w5⟩ :=
    write_spec hps hok (i.toNat / va.pageSize) (i.toNat % va.pageSize) (Nat.mod_lt _ hps) v
  obtain ⟨i1, i2, i3⟩ := install_spec va hinv (i.toNat / va.pageSize) c2 s2 w2 w4 w5
  refine ⟨_, ?_, i1, i2, ?_⟩
  · unfold VirtualMultiArray.set
    rw [route_spec va i h0 h1]
    simp only
    rw [w1]
  · intro a
    rw [i3 a]
    by_cases ha : a = i.toNat
    · rw [if_pos ha, ha, if_pos rfl, w3, pageAddr_eq, if_pos rfl]
    · rw [if_neg ha]
      split
      · rename_i ho
        rw [w3 a, pageAddr_eq, if_neg ha]
        unfold VirtualMultiArray.view
        rw [ho]
      · rfl

end ArrayLemmas

end VirtualMultiArrayForMSVC

namespace VirtualMultiArrayForMSVC

/-! ## The virtual array: sequences of calls -/

section RunLemmas

variable {α : Type}

theorem create_spec (n : Int) (devices : List Nat) (pageSize pagesPerLRU : Int)
    (channelCounts : List Int) (assign : ShardAssignment) (memory : Nat → Nat → α)
    (hn : 0 < n) (hp : 0 < pageSize) (hl : 0 < pagesPerLRU) (hd : devices ≠ [])
    (hc : ∀ c ∈ channelCounts, 0 < c) :
    ∃ va, VirtualMultiArray.create n devices pageSize pagesPerLRU channelCounts assign memory =
        .ok va ∧ va.Inv ∧ (va.n : Int) = n := by
  have hall : channelCounts.all (fun c => decide (0 < c)) = true := by
    simpa [List.all_eq_true] using hc
  refine ⟨_, by unfold VirtualMultiArray.create; rw [if_pos ⟨hn, hp, hl, hd, hall⟩], ⟨?_, ?_⟩, ?_⟩
  · show 0 < pageSize.toNat
    omega
  · intro d ch
    exact ⟨⟨List.nodup_nil, fun pg hpg => by simp at hpg⟩, fun pg hpg => by simp at hpg⟩
  · show ((n.toNat : Nat) : Int) = n
    omega

theorem get_outOfRange (va : VirtualMultiArray α) (i : Int) (h : ¬ (0 ≤ i ∧ i < va.n)) :
    va.get i = .error .OutOfRange := by
  unfold VirtualMultiArray.get VirtualMultiArray.route
  rw [if_neg h]

theorem set_outOfRange (va : VirtualMultiArray α) (i : Int) (v : α) (h : ¬ (0 ≤ i ∧ i < va.n)) :
    va.set i v = .error .OutOfRange := by
  unfold VirtualMultiArray.set VirtualMultiArray.route
  rw [if_neg h]

theorem step_spec (va : VirtualMultiArray α) (hinv : va.Inv) (op : Op α) :
    (va.step op).Inv ∧ va.SameShape (va.step op) ∧
      ∀ a, (va.step op).view a =
        match op with
        | .get _ => va.view a
        | .set j v => if (0 ≤ j ∧ j < va.n) ∧ a = j.toNat then v else va.view a := by
  cases op with
  | get i =>
    by_cases hr : 0 ≤ i ∧ i < va.n
    · obtain ⟨vb, hg, h1, h2, h3⟩ := get_spec va hinv i hr.1 hr.2
      have hs : va.step (Op.get i) = vb := by simp only [VirtualMultiArray.step, hg]
      rw [hs]
      exact ⟨h1, h2, h3⟩
    · have hs : va.step (Op.get i) = va := by
        simp only [VirtualMultiArray.step, get_outOfRange va i hr]
      rw [hs]
      exact ⟨hinv, SameShape.refl va, fun _ => rfl⟩
  | set j v =>
    by_cases hr : 0 ≤ j ∧ j < va.n
    · obtain ⟨vb, hg, h1, h2, h3⟩ := set_spec va hinv j hr.1 hr.2 v
      have hs : va.step (Op.set j v) = vb := by simp only [VirtualMultiArray.step, hg]
      rw [hs]
      refine ⟨h1, h2, fun a => ?_⟩
      rw [h3 a]
      by_cases ha : a = j.toNat
      · rw [if_pos ha]
        exact (if_pos ⟨hr, ha⟩).symm
      · rw [if_neg ha]
        exact (if_neg (fun h => ha h.2)).symm
    · have hs : va.step (Op.set j v) = va := by
        simp only [VirtualMultiArray.step, set_outOfRange va j v hr]
      rw [hs]
      refine ⟨hinv, SameShape.refl va, fun a => ?_⟩
      exact (if_neg (fun h => hr h.1)).symm

theorem run_inv (ops : List (Op α)) :
    ∀ va : VirtualMultiArray α, va.Inv → (va.run ops).Inv ∧ va.SameShape (va.run ops) := by
  induction ops with
  | nil => exact fun va h => ⟨h, SameShape.refl va⟩
  | cons op rest ih =>
    intro va h
    obtain ⟨s1, s2, _⟩ := step_spec va h op
    obtain ⟨r1, r2⟩ := ih (va.step op) s1
    exact ⟨r1, SameShape.trans s2 r2⟩

theorem run_view_of_no_set (ops : List (Op α)) (i : Int) (h0 : 0 ≤ i) :
    ∀ va : VirtualMultiArray α, va.Inv → (∀ op ∈ ops, Op.isSetAt i op = false) →
      (va.run ops).view i.toNat = va.view i.toNat := by
  induction ops with
  | nil => exact fun _ _ _ => rfl
  | cons op rest ih =>
    intro va h hno
    obtain ⟨s1, _, s3⟩ := step_spec va h op
    have hrest := ih (va.step op) s1 (fun o ho => hno o (List.mem_cons_of_mem _ ho))
    show ((va.step op).run rest).view i.toNat = _
    rw [hrest, s3]
    cases op with
    | get j => rfl
    | set j v =>
      have hji : j ≠ i := by
        have := hno (Op.set j v) (List.mem_cons_self _ _)
        simpa [Op.isSetAt] using this
      have hne : ¬ ((0 ≤ j ∧ j < va.n) ∧ i.toNat = j.toNat) := by
        intro hc
        apply hji
        have := hc.1.1
        omega
      exact if_neg hne

theorem run_good (good : Int → α → Prop) (ops : List (Op α)) (i : Int) (h0 : 0 ≤ i) :
    ∀ va : VirtualMultiArray α, va.Inv → i < va.n →
      (∀ j o, Op.set j o ∈ ops → good j o) →
      (good i (va.view i.toNat) ∨ ∃ o, Op.set i o ∈ ops) →
      good i ((va.run ops).view i.toNat) := by
  induction ops with
  | nil =>
    intro va _ _ _ h
    rcases h with h | ⟨o, ho⟩
    · exact h
    · simp at ho
  | cons op rest ih =>
    intro va h h1 hg hor
    obtain ⟨s1, s2, s3⟩ := step_spec va h op
    have hn : i < (va.step op).n := by rw [s2.1]; exact h1
    refine ih (va.step op) s1 hn (fun j o ho => hg j o (List.mem_cons_of_mem _ ho)) ?_
    rw [s3]
    cases op with
    | get j =>
      rcases hor with hv | ⟨o, ho⟩
      · exact Or.inl hv
      · rcases List.mem_cons.mp ho with he | hr
        · cases he
        · exact Or.inr ⟨o, hr⟩
    | set j v =>
      by_cases hji : j = i
      · subst hji
        left
        have hv : (if (0 ≤ j ∧ j < (va.n : Int)) ∧ j.toNat = j.toNat then v
            else va.view j.toNat) = v := if_pos ⟨⟨h0, h1⟩, rfl⟩
        show good j (if (0 ≤ j ∧ j < (va.n : Int)) ∧ j.toNat = j.toNat then v
            else va.view j.toNat)
        rw [hv]
        exact hg j v (List.mem_cons_self _ _)
      · have hne : ¬ ((0 ≤ j ∧ j < va.n) ∧ i.toNat = j.toNat) := by
          intro hc
          apply hji
          have := hc.1.1
          omega
        have hv : (if (0 ≤ j ∧ j < (va.n : Int)) ∧ i.toNat = j.toNat then v
            else va.view i.toNat) = va.view i.toNat := if_neg hne
        show good i (if (0 ≤ j ∧ j < (va.n : Int)) ∧ i.toNat = j.toNat then v
            else va.view i.toNat) ∨ _
        rw [hv]
        rcases hor with hv | ⟨o, ho⟩
        · exact Or.inl hv
        · rcases List.mem_cons.mp ho with he | hr
          · injection he with e1 e2
            exact absurd e1.symm hji
          · exact Or.inr ⟨o, hr⟩

theorem initOps_spec (junk : Int → Fin dataLen → Char) (order : List Int)
    (h : ∀ j ∈ order, 0 ≤ j ∧ j ≤ 2147483647) :
    ∃ ops, initOps junk order = some ops ∧
      (∀ j o, Op.set j o ∈ ops → o.getId = some j) ∧
      (∀ j ∈ order, ∃ o, Op.set j o ∈ ops) := by
  induction order with
  | nil => exact ⟨[], rfl, fun _ _ ho => by simp at ho, fun _ hj => by simp at hj⟩
  | cons j js ih =>
    obtain ⟨ops, h1, h2, h3⟩ := ih (fun k hk => h k (List.mem_cons_of_mem _ hk))
    have hj := h j (List.mem_cons_self _ _)
    have hw : wrapInt32 j = j := by
      unfold wrapInt32
      omega
    obtain ⟨o, ho, _, hg⟩ := new_getId (junk j) j hj.1
    refine ⟨Op.set j o :: ops, by simp only [initOps, hw, ho, h1], ?_, ?_⟩
    · intro k p hp
      rcases List.mem_cons.mp hp with he | hr
      · injection he with e1 e2
        rw [e1, e2]
        exact hg
      · exact h2 k p hr
    · intro k hk
      rcases List.mem_cons.mp hk with he | hr
      · exact ⟨o, by rw [he]; exact List.mem_cons_self _ _⟩
      · obtain ⟨p, hp⟩ := h3 k hr
        exact ⟨p, List.mem_cons_of_mem _ hp⟩

theorem readChecks_ok (reads : List Int) :
    ∀ test : VirtualMultiArray Object, test.Inv →
      (∀ i : Int, 0 ≤ i → i < test.n → (test.view i.toNat).getId = some i) →
      (∀ r ∈ reads, 0 ≤ r ∧ r < test.n) →
      ∃ test1, readChecks test reads = .ok test1 := by
  induction reads with
  | nil => exact fun test _ _ _ => ⟨test, rfl⟩
  | cons r rs ih =>
    intro test hinv hgood hr
    obtain ⟨hr0, hr1⟩ := hr r (List.mem_cons_self _ _)
    obtain ⟨vb, hg, b1, b2, b3⟩ := get_spec test hinv r hr0 hr1
    have hc : readCheck test r = .ok vb := by
      unfold readCheck
      simp only [hg, hgood r hr0 hr1]
      simp
    obtain ⟨t1, ht1⟩ := ih vb b1
      (fun i hi0 hi1 => by rw [b3]; exact hgood i hi0 (by rw [← b2.1]; exact hi1))
      (fun k hk => by rw [b2.1]; exact hr k (List.mem_cons_of_mem _ hk))
    exact ⟨t1, by simp only [readChecks, hc, ht1]⟩

end RunLemmas

end VirtualMultiArrayForMSVC

namespace VirtualMultiArrayForMSVC

/-! ## Round trip of the virtual array -/

/-- C1: round trip.  For every valid construction, construction succeeds, and then for
every index `0 <= i < n`: whatever calls came before, after `set(i, v)` and any sequence
of calls that contains no `set(i, _)` (accesses to other indices, with their evictions
and write-backs, and reads of `i` included), `get(i)` succeeds and returns `v`.  For the
benchmark: once `set(j, Object(j))` has been performed for every `j` in `[0, n)`, in any
order, then after any in-range reads `get(i)` returns an object with `getId() == i` for
every `i` in `[0, n)`, and the read-back checks never throw. -/
theorem virtual_array_round_trip :
    (∀ (α : Type) (n : Int) (devices : List Nat) (pageSize pagesPerLRU : Int)
        (channelCounts : List Int) (assign : ShardAssignment) (memory : Nat → Nat → α),
        0 < n → 0 < pageSize → 0 < pagesPerLRU → devices ≠ [] →
        (∀ c ∈ channelCounts, 0 < c) →
        ∃ va0, VirtualMultiArray.create n devices pageSize pagesPerLRU channelCounts assign
            memory = .ok va0 ∧
          ∀ (before : List (Op α)) (i : Int) (v : α) (between : List (Op α)),
            0 ≤ i → i < n → (∀ op ∈ between, Op.isSetAt i op = false) →
            ∃ va1, (va0.run before).set i v = .ok va1 ∧
              ∃ va2, (va1.run between).get i = .ok (v, va2)) ∧
    (∀ (devices : List Nat) (assign : ShardAssignment) (memory : Nat → Nat → Object)
        (junk : Int → Fin dataLen → Char) (order reads : List Int),
        devices ≠ [] → order.Perm (initIndices n) → (∀ r ∈ reads, 0 ≤ r ∧ r < n) →
        ∃ test ops, VirtualMultiArray.create n devices pageSize pagesPerLRU numLRU assign
            memory = .ok test ∧
          initOps junk order = some ops ∧
          (∀ i : Int, 0 ≤ i → i < n →
            ∃ obj test1, ((test.run ops).run (reads.map Op.get)).get i = .ok (obj, test1) ∧
              obj.getId = some i) ∧
          ∃ test2, readChecks (test.run ops) reads = .ok test2) := by
  constructor
  · intro α n devices pageSize pagesPerLRU channelCounts assign memory hn hp hl hd hc
    obtain ⟨va0, hcr, hinv, hn0⟩ :=
      create_spec n devices pageSize pagesPerLRU channelCounts assign memory hn hp hl hd hc
    refine ⟨va0, hcr, ?_⟩
    intro before i v between h0 h1 hno
    obtain ⟨b1, b2⟩ := run_inv before va0 hinv
    have hlt : i < ((va0.run before).n : Int) := by rw [b2.1, hn0]; exact h1
    obtain ⟨va1, hs, s1, s2, s3⟩ := set_spec (va0.run before) b1 i h0 hlt v
    obtain ⟨r1, r2⟩ := run_inv between va1 s1
    have hlt2 : i < ((va1.run between).n : Int) := by rw [r2.1, s2.1]; exact hlt
    obtain ⟨va2, hg, _⟩ := get_spec (va1.run between) r1 i h0 hlt2
    refine ⟨va1, hs, va2, ?_⟩
    rw [hg, run_view_of_no_set between i h0 va1 s1 hno, s3, if_pos rfl]
  · intro devices assign memory junk order reads hd hperm hreads
    obtain ⟨test, hcr, hinv, hn0⟩ :=
      create_spec n devices pageSize pagesPerLRU numLRU assign memory (by decide) (by decide)
        (by decide) hd (by decide)
    have hmem : ∀ j, j ∈ order ↔ 0 ≤ j ∧ j < n :=
      fun j => (hperm.mem_iff).trans (mem_initIndices n j)
    obtain ⟨ops, hops, hgood, hall⟩ := initOps_spec junk order (fun j hj => by
      have := (hmem j).mp hj
      rw [n_eq] at this
      omega)
    obtain ⟨i1, i2⟩ := run_inv ops test hinv
    -- after the initialisation every element carries its own index
    have hview : ∀ i : Int, 0 ≤ i → i < ((test.run ops).n : Int) →
        ((test.run ops).view i.toNat).getId = some i := by
      intro i h0 h1
      rw [i2.1] at h1
      exact run_good (fun j (o : Object) => o.getId = some j) ops i h0 test hinv h1 hgood
        (Or.inr (hall i ((hmem i).mpr ⟨h0, by rw [← hn0]; exact h1⟩)))
    refine ⟨test, ops, hcr, hops, ?_, ?_⟩
    · intro i h0 h1
      obtain ⟨g1, g2⟩ := run_inv (reads.map Op.get) (test.run ops) i1
      have hlt : i < ((test.run ops).n : Int) := by rw [i2.1, hn0]; exact h1
      have hlt2 : i < (((test.run ops).run (reads.map Op.get)).n : Int) := by
        rw [g2.1]; exact hlt
      obtain ⟨test1, hg, _⟩ := get_spec _ g1 i h0 hlt2
      refine ⟨_, test1, hg, ?_⟩
      rw [run_view_of_no_set (reads.map Op.get) i h0 (test.run ops) i1 (fun op hop => by
        obtain ⟨r, _, rfl⟩ := List.mem_map.mp hop
        rfl)]
      exact hview i h0 hlt
    · exact readChecks_ok reads (test.run ops) i1 hview (fun r hr => by
        rw [i2.1, hn0]; exact hreads r hr)

/-- Witness of C1: a 10-element array of page size 2 over two devices with one-page
caches, written and read back across evictions; and the benchmark with one device, the
initialisation in program order and a read of index 3. -/
theorem virtual_array_round_trip_witness :
    (∃ va0, VirtualMultiArray.create 10 [0, 1] 2 1 [2, 2] exampleAssignment
        (fun _ _ => (0 : Nat)) = .ok va0 ∧
      ∃ va1, (va0.run [Op.set 0 5, Op.set 4 7]).set 1 6 = .ok va1 ∧
        ∃ va2, (va1.run [Op.set 8 9, Op.get 4, Op.set 5 11, Op.set 0 3]).get 1 =
          .ok (6, va2)) ∧
    (∃ test ops, VirtualMultiArray.create n [0] pageSize pagesPerLRU numLRU exampleAssignment
        (fun _ _ => Object.newDefault (fun _ => 'x')) = .ok test ∧
      initOps (fun _ _ => 'x') (initIndices n) = some ops ∧
      (∀ i : Int, 0 ≤ i → i < n →
        ∃ obj test1, ((test.run ops).run ([3].map Op.get)).get i = .ok (obj, test1) ∧
          obj.getId = some i) ∧
      ∃ test2, readChecks (test.run ops) [3] = .ok test2) := by
  constructor
  · obtain ⟨va0, h, hrt⟩ := virtual_array_round_trip.1 Nat 10 [0, 1] 2 1 [2, 2]
      exampleAssignment (fun _ _ => (0 : Nat)) (by decide) (by decide) (by decide) (by decide)
      (by decide)
    exact ⟨va0, h, hrt [Op.set 0 5, Op.set 4 7] 1 6
      [Op.set 8 9, Op.get 4, Op.set 5 11, Op.set 0 3] (by decide) (by decide) (by decide)⟩
  · exact virtual_array_round_trip.2 [0] exampleAssignment
      (fun _ _ => Object.newDefault (fun _ => 'x')) (fun _ _ => 'x') (initIndices n) [3]
      (by decide) (List.Perm.refl _) (by decide)

end VirtualMultiArrayForMSVC
